import Mathlib

/-!
Verification development for the c-behavior-tree engine (src/src/bt.c,
src/include/bt.h): a shallow embedding of the tick dispatcher and the
per-node-type handlers (leaf, Sequence, Selector, Inverter), together with
theorems settling the frozen claims about the engine.

Modelling conventions, matched against the C source:
- `bt_status_t` and `bt_node_type_t` become plain enumerations.
- `bt_node_t` becomes `bt_node`, an inductive tree: a record of the scalar
  fields plus a `List (Option bt_node)` of child references; a `none` entry
  models a NULL child pointer, and a NULL `children` array with
  `children_count = n` is modelled by a list of `n` `none`s (`bt_child_at`
  returns NULL in both situations, so the observable behaviour coincides).
  `children_count` is the list length: the C API receives the array and its
  count together, and every access is bounded by the count.
- `uint16_t` counters are modelled as `Nat`.  The only arithmetic the core
  performs on them is `(uint16_t)(i + 1)` with `i < children_count <= 65535`,
  which never wraps, so `Nat` is exact for every representable tree.
- The user tick callback of an ACTION/CONDITION leaf is modelled as an
  oracle `Nat -> bt_status` consulted at the node's private invocation
  counter `calls` (which stands for whatever mutable state the user callback
  keeps in the blackboard); a `none` callback models a NULL function pointer.
- The `on_enter`/`on_exit` hooks are modelled by presence flags plus
  invocation counters `enter_count`/`exit_count`: `bt_call_enter` bumps the
  counter exactly when the C helper would invoke the user hook.  The counter
  models the observable effect of a (non-mutating) user hook.
- `tick_count` counts how many times the dispatcher was entered on a node;
  it models an external observer of `bt_tick_internal` invocations and is
  used to state the resumption claims.
- `user_data` and `blackboard` are opaque pointers; they are modelled as
  `Nat` tokens (the core never interprets them).
- The C recursion over the pointer graph is modelled by a fuel-indexed
  interpreter `bt_tick_fuel`; descending into a child consumes one unit of
  fuel, and `bt_tick_internal` supplies `sizeOf node` fuel, which strictly
  bounds the depth of any tree, so the fuel-exhaustion branch is never taken
  on the chosen budget.
-/

/-- Status codes of `bt_status_t` (bt.h). -/
inductive bt_status : Type where
  | success
  | failure
  | running
  | error
deriving DecidableEq, Repr

/-- Node types of `bt_node_type_t` (bt.h). -/
inductive bt_node_type : Type where
  | action
  | condition
  | sequence
  | selector
  | inverter
deriving DecidableEq, Repr

/-- Scalar fields of `bt_node_t` (bt.h), excluding the recursive children
array.  `calls`, `tick_count`, `enter_count` and `exit_count` are the
instrumentation counters described in the module docstring; the remaining
fields are the C struct fields. -/
structure bt_node_data : Type where
  type : bt_node_type
  status : bt_status
  tick : Option (Nat → bt_status)
  current_child : Nat
  has_on_enter : Bool
  has_on_exit : Bool
  time_anchor_ms : Nat
  user_data : Nat
  blackboard : Nat
  calls : Nat
  tick_count : Nat
  enter_count : Nat
  exit_count : Nat

/-- The node graph of `bt_node_t`: scalar data plus the children array.
A `none` entry is a NULL child pointer. -/
inductive bt_node : Type where
  | mk (data : bt_node_data) (children : List (Option bt_node)) : bt_node

/-- Projection onto the scalar fields. -/
def bt_node.data : bt_node → bt_node_data
  | .mk d _ => d

/-- Projection onto the children array. -/
def bt_node.children : bt_node → List (Option bt_node)
  | .mk _ cs => cs

/-- Replace the scalar fields, keeping the children. -/
def bt_node.withData : bt_node → bt_node_data → bt_node
  | .mk _ cs, d => .mk d cs

/-- Replace the children array, keeping the scalar fields. -/
def bt_node.withChildren : bt_node → List (Option bt_node) → bt_node
  | .mk d _, cs => .mk d cs

@[simp] theorem bt_node.data_mk (d : bt_node_data) (cs : List (Option bt_node)) :
    (bt_node.mk d cs).data = d := rfl

@[simp] theorem bt_node.children_mk (d : bt_node_data) (cs : List (Option bt_node)) :
    (bt_node.mk d cs).children = cs := rfl

@[simp] theorem bt_node.data_withData (n : bt_node) (d : bt_node_data) :
    (n.withData d).data = d := by cases n; rfl

@[simp] theorem bt_node.children_withData (n : bt_node) (d : bt_node_data) :
    (n.withData d).children = n.children := by cases n; rfl

@[simp] theorem bt_node.data_withChildren (n : bt_node) (cs : List (Option bt_node)) :
    (n.withChildren cs).data = n.data := by cases n; rfl

@[simp] theorem bt_node.children_withChildren (n : bt_node) (cs : List (Option bt_node)) :
    (n.withChildren cs).children = cs := by cases n; rfl

mutual

/-- Structural size of a node: one more than the size of its children
array.  It strictly bounds the recursion depth of the C tick over the
tree and serves as the fuel budget of `bt_tick_internal`. -/
def bt_size : bt_node → Nat
  | .mk _ cs => bt_size_list cs + 1

/-- Structural size of a children array. -/
def bt_size_list : List (Option bt_node) → Nat
  | [] => 0
  | none :: rest => bt_size_list rest + 1
  | some c :: rest => bt_size c + bt_size_list rest + 1

end

/-- The `children_count` field: the number of child slots of the node. -/
def bt_children_count (n : bt_node) : Nat := n.children.length

/-- Write the `status` field (`node->status = s`). -/
def bt_set_status (n : bt_node) (s : bt_status) : bt_node :=
  n.withData { n.data with status := s }

/-- Write the `current_child` field (`node->current_child = i`). -/
def bt_set_cursor (n : bt_node) (i : Nat) : bt_node :=
  n.withData { n.data with current_child := i }

/-- Instrumentation: record one entry of the dispatcher on this node. -/
def bt_bump_tick (n : bt_node) : bt_node :=
  n.withData { n.data with tick_count := n.data.tick_count + 1 }

/-- Helper `bt_call_enter` (bt.c): invoke `on_enter` when the hook is set.
The invocation is recorded in `enter_count`. -/
def bt_call_enter (n : bt_node) : bt_node :=
  if n.data.has_on_enter
  then n.withData { n.data with enter_count := n.data.enter_count + 1 }
  else n

/-- Helper `bt_call_exit` (bt.c): invoke `on_exit` when the hook is set.
The invocation is recorded in `exit_count`. -/
def bt_call_exit (n : bt_node) : bt_node :=
  if n.data.has_on_exit
  then n.withData { n.data with exit_count := n.data.exit_count + 1 }
  else n

/-- Helper `bt_child_at` (bt.c): defensive child fetch, NULL when the index
is out of range, the array is NULL, or the slot holds NULL. -/
def bt_child_at (n : bt_node) (i : Nat) : Option bt_node :=
  match n.children.get? i with
  | some (some c) => some c
  | _ => none

/-- Handler `bt_tick_leaf` (bt.c): an ACTION/CONDITION node invokes its user
callback and stores the returned status verbatim; a NULL callback yields
`error` with `status` set to `error`.  Invoking the callback consumes one
position of the oracle (the `calls` counter advances). -/
def bt_tick_leaf (node : bt_node) : bt_node × bt_status :=
  match node.data.tick with
  | none => (bt_set_status node bt_status.error, bt_status.error)
  | some f =>
    let r := f node.data.calls
    (bt_set_status (node.withData { node.data with calls := node.data.calls + 1 }) r, r)

/-- The child loop of `bt_tick_sequence` (bt.c).  `tick1` is the recursive
tick used on children, `i` the loop index, `cur` the value currently stored
in `node->current_child`, and the list argument is the slice of the children
array from index `i` on.  It returns the updated slice, the final
`current_child` value, and `some st` when the loop broke with
`status = result = st` (`none` when the loop exhausted the children). -/
def bt_seq_go (tick1 : bt_node → bt_node × bt_status) :
    Nat → Nat → List (Option bt_node) → List (Option bt_node) × Nat × Option bt_status
  | _, cur, [] => ([], cur, none)
  | _, cur, none :: rest => (none :: rest, cur, some bt_status.error)
  | i, _, some child :: rest =>
    match tick1 child with
    | (child', bt_status.running) => (some child' :: rest, i, some bt_status.running)
    | (child', bt_status.failure) => (some child' :: rest, i, some bt_status.failure)
    | (child', bt_status.error) => (some child' :: rest, i, some bt_status.error)
    | (child', bt_status.success) =>
      let r := bt_seq_go tick1 (i + 1) (i + 1) rest
      (some child' :: r.1, r.2.1, r.2.2)

/-- The child loop of `bt_tick_selector` (bt.c), mirror image of
`bt_seq_go`: `failure` advances, `success` breaks. -/
def bt_sel_go (tick1 : bt_node → bt_node × bt_status) :
    Nat → Nat → List (Option bt_node) → List (Option bt_node) × Nat × Option bt_status
  | _, cur, [] => ([], cur, none)
  | _, cur, none :: rest => (none :: rest, cur, some bt_status.error)
  | i, _, some child :: rest =>
    match tick1 child with
    | (child', bt_status.running) => (some child' :: rest, i, some bt_status.running)
    | (child', bt_status.success) => (some child' :: rest, i, some bt_status.success)
    | (child', bt_status.error) => (some child' :: rest, i, some bt_status.error)
    | (child', bt_status.failure) =>
      let r := bt_sel_go tick1 (i + 1) (i + 1) rest
      (some child' :: r.1, r.2.1, r.2.2)

/-- Handler `bt_tick_sequence` (bt.c): fresh-episode reset and `on_enter`
when `status != running`; run the child loop from `current_child`; if the
loop did not break and the cursor reached `children_count`, the sequence
succeeded; `on_exit` on any terminal result. -/
def bt_tick_sequence (tick1 : bt_node → bt_node × bt_status) (node : bt_node) :
    bt_node × bt_status :=
  let node1 := if node.data.status ≠ bt_status.running
    then bt_call_enter (bt_set_cursor node 0) else node
  let c0 := node1.data.current_child
  let r := bt_seq_go tick1 c0 c0 (node1.children.drop c0)
  let node2 := bt_set_cursor (node1.withChildren (node1.children.take c0 ++ r.1)) r.2.1
  let step : bt_node × bt_status := match r.2.2 with
    | some st => (bt_set_status node2 st, st)
    | none => (node2, bt_status.success)
  let step2 : bt_node × bt_status :=
    if step.2 ≠ bt_status.running ∧ bt_children_count step.1 ≤ step.1.data.current_child
    then (bt_set_status step.1 bt_status.success, bt_status.success) else step
  if step2.2 = bt_status.success ∨ step2.2 = bt_status.failure ∨ step2.2 = bt_status.error
  then (bt_call_exit step2.1, step2.2) else step2

/-- Handler `bt_tick_selector` (bt.c): mirror image of the sequence handler;
exhausting the children without a success, running or error yields
`failure`. -/
def bt_tick_selector (tick1 : bt_node → bt_node × bt_status) (node : bt_node) :
    bt_node × bt_status :=
  let node1 := if node.data.status ≠ bt_status.running
    then bt_call_enter (bt_set_cursor node 0) else node
  let c0 := node1.data.current_child
  let r := bt_sel_go tick1 c0 c0 (node1.children.drop c0)
  let node2 := bt_set_cursor (node1.withChildren (node1.children.take c0 ++ r.1)) r.2.1
  let step : bt_node × bt_status := match r.2.2 with
    | some st => (bt_set_status node2 st, st)
    | none => (node2, bt_status.failure)
  let step2 : bt_node × bt_status :=
    if step.2 ≠ bt_status.running ∧ bt_children_count step.1 ≤ step.1.data.current_child
    then (bt_set_status step.1 bt_status.failure, bt_status.failure) else step
  if step2.2 = bt_status.success ∨ step2.2 = bt_status.failure ∨ step2.2 = bt_status.error
  then (bt_call_exit step2.1, step2.2) else step2

/-- Handler `bt_tick_inverter` (bt.c): require exactly one child slot
(otherwise return `error` immediately, leaving the node untouched); fire
`on_enter` on a fresh episode; a NULL sole child yields `error` without
writing `status`; otherwise tick the child, swap `success`/`failure`, pass
`running`/`error` through, store the mapped result, and fire `on_exit` on a
terminal result. -/
def bt_tick_inverter (tick1 : bt_node → bt_node × bt_status) (node : bt_node) :
    bt_node × bt_status :=
  if bt_children_count node ≠ 1 then (node, bt_status.error)
  else
    let child := bt_child_at node 0
    let node1 := if node.data.status ≠ bt_status.running then bt_call_enter node else node
    match child with
    | none => (node1, bt_status.error)
    | some c =>
      match tick1 c with
      | (c', cs) =>
        let node2 := node1.withChildren (node1.children.set 0 (some c'))
        let result := if cs = bt_status.success then bt_status.failure
          else if cs = bt_status.failure then bt_status.success else cs
        let node3 := bt_set_status node2 result
        if result = bt_status.success ∨ result = bt_status.failure ∨ result = bt_status.error
        then (bt_call_exit node3, result) else (node3, result)

/-- The type dispatch of `bt_tick_internal` (bt.c).  The five enumerators of
`bt_node_type_t` are covered exhaustively, so the defensive `default` arm of
the C switch has no counterpart in the model. -/
def bt_dispatch (tick1 : bt_node → bt_node × bt_status) (node : bt_node) :
    bt_node × bt_status :=
  match node.data.type with
  | bt_node_type.action => bt_tick_leaf node
  | bt_node_type.condition => bt_tick_leaf node
  | bt_node_type.sequence => bt_tick_sequence tick1 node
  | bt_node_type.selector => bt_tick_selector tick1 node
  | bt_node_type.inverter => bt_tick_inverter tick1 node

/-- Fuel-indexed interpreter for `bt_tick_internal` (bt.c): one unit of fuel
is consumed per recursion level.  With exhausted fuel a (hypothetical)
deeper child behaves like a child that returned `error`; `bt_tick_internal`
below always supplies enough fuel for the whole tree. -/
def bt_tick_fuel (fuel : Nat) : bt_node → bt_node × bt_status :=
  Nat.rec (motive := fun _ => bt_node → bt_node × bt_status)
    (fun node => (node, bt_status.error))
    (fun _ ih node => bt_dispatch ih (bt_bump_tick node))
    fuel

@[simp] theorem bt_tick_fuel_zero (n : bt_node) :
    bt_tick_fuel 0 n = (n, bt_status.error) := rfl

theorem bt_tick_fuel_succ (f : Nat) (n : bt_node) :
    bt_tick_fuel (f + 1) n = bt_dispatch (bt_tick_fuel f) (bt_bump_tick n) := rfl

/-- Function `bt_tick_internal` (bt.c) on a non-NULL node: `bt_size node` strictly
bounds the tree depth, so this budget never exhausts inside the tree. -/
def bt_tick_internal (node : bt_node) : bt_node × bt_status :=
  bt_tick_fuel (bt_size node) node

/-- Public `bt_tick` (bt.c): a NULL root yields `error` with no side
effect. -/
def bt_tick : Option bt_node → Option bt_node × bt_status
  | none => (none, bt_status.error)
  | some root =>
    match bt_tick_internal root with
    | (root', s) => (some root', s)

/-- Public `bt_init` (bt.c) on a non-NULL node: overwrite every field with
its initial value.  The C call receives the children array together with its
count; the list argument stands for that pair, and the
`(children_count > 0) ? children : NULL` normalisation is the identity in
the list model (a count of zero is the empty list).  The instrumentation
counters restart at zero for the freshly initialised node. -/
def bt_init (_node : bt_node) (ty : bt_node_type) (tick_fn : Option (Nat → bt_status))
    (children : List (Option bt_node)) (user_data : Nat) : bt_node :=
  bt_node.mk
    { type := ty
      status := bt_status.failure
      tick := tick_fn
      current_child := 0
      has_on_enter := false
      has_on_exit := false
      time_anchor_ms := 0
      user_data := user_data
      blackboard := 0
      calls := 0
      tick_count := 0
      enter_count := 0
      exit_count := 0 }
    children

/-- Iterated ticking of one node by the external driver: `bt_run n k` is the
node after `k` calls of `bt_tick_internal`. -/
def bt_run (node : bt_node) : Nat → bt_node
  | 0 => node
  | k + 1 => (bt_tick_internal (bt_run node k)).1

/-- The status returned by the `(k+1)`-st tick of the node. -/
def bt_run_result (node : bt_node) (k : Nat) : bt_status :=
  (bt_tick_internal (bt_run node k)).2

/-! ## Specification-side definitions

The following definitions are modelled from the claims' wording, not from
the C source; the theorems below compare the source-derived handlers
against them. -/

/-- Terminal results in the sense of the spec: `Success`, `Failure` or
`Error` (everything except `Running`). -/
def bt_terminal (s : bt_status) : Prop :=
  s = bt_status.success ∨ s = bt_status.failure ∨ s = bt_status.error

instance (s : bt_status) : Decidable (bt_terminal s) := by
  unfold bt_terminal; infer_instance

/-- The result a child slot reports to its composite parent under the child
tick `tick1`: `none` for a missing child reference. -/
def bt_child_res (tick1 : bt_node → bt_node × bt_status) : Option bt_node → Option bt_status :=
  fun o => o.map (fun c => (tick1 c).2)

/-- Modelled from claim C2's wording: scanning the children results of a
Sequence from index `i` — `Running`/`Failure` stop with cursor `i` and that
status, `Error` or a missing child stops with cursor `i` and `Error`,
`Success` advances, and exhaustion yields `Success` with the cursor one past
the last child. -/
def bt_seq_scan : Nat → List (Option bt_status) → Nat × bt_status
  | i, [] => (i, bt_status.success)
  | i, none :: _ => (i, bt_status.error)
  | i, some bt_status.running :: _ => (i, bt_status.running)
  | i, some bt_status.failure :: _ => (i, bt_status.failure)
  | i, some bt_status.error :: _ => (i, bt_status.error)
  | i, some bt_status.success :: rest => bt_seq_scan (i + 1) rest

/-- Modelled from claim C3's wording: the Selector scan, symmetric to
`bt_seq_scan` with `Success` and `Failure` swapped. -/
def bt_sel_scan : Nat → List (Option bt_status) → Nat × bt_status
  | i, [] => (i, bt_status.failure)
  | i, none :: _ => (i, bt_status.error)
  | i, some bt_status.running :: _ => (i, bt_status.running)
  | i, some bt_status.success :: _ => (i, bt_status.success)
  | i, some bt_status.error :: _ => (i, bt_status.error)
  | i, some bt_status.failure :: rest => bt_sel_scan (i + 1) rest

/-- The index the child loop starts from: `0` on a fresh episode (entry
status not `running`), the stored cursor otherwise. -/
def bt_entry_cursor (node : bt_node) : Nat :=
  if node.data.status ≠ bt_status.running then 0 else node.data.current_child

/-- Mapped child-result inversion of the Inverter, as claim C4 words it:
swap `Success` and `Failure`, pass `Running` and `Error` through. -/
def bt_invert : bt_status → bt_status
  | bt_status.success => bt_status.failure
  | bt_status.failure => bt_status.success
  | bt_status.running => bt_status.running
  | bt_status.error => bt_status.error

/-! ## Effect lemmas for the field writers and hook helpers -/

@[simp] theorem bt_set_status_data (n : bt_node) (s : bt_status) :
    (bt_set_status n s).data = { n.data with status := s } := by
  simp [bt_set_status]

@[simp] theorem bt_set_status_children (n : bt_node) (s : bt_status) :
    (bt_set_status n s).children = n.children := by
  simp [bt_set_status]

@[simp] theorem bt_set_cursor_data (n : bt_node) (i : Nat) :
    (bt_set_cursor n i).data = { n.data with current_child := i } := by
  simp [bt_set_cursor]

@[simp] theorem bt_set_cursor_children (n : bt_node) (i : Nat) :
    (bt_set_cursor n i).children = n.children := by
  simp [bt_set_cursor]

@[simp] theorem bt_bump_tick_data (n : bt_node) :
    (bt_bump_tick n).data = { n.data with tick_count := n.data.tick_count + 1 } := by
  simp [bt_bump_tick]

@[simp] theorem bt_bump_tick_children (n : bt_node) :
    (bt_bump_tick n).children = n.children := by
  simp [bt_bump_tick]

@[simp] theorem bt_call_enter_data (n : bt_node) :
    (bt_call_enter n).data =
      { n.data with enter_count :=
          n.data.enter_count + (if n.data.has_on_enter then 1 else 0) } := by
  cases n with
  | mk d cs =>
    cases d
    unfold bt_call_enter
    dsimp only [bt_node.data_mk, bt_node.data_withData]
    split <;> simp_all

@[simp] theorem bt_call_enter_children (n : bt_node) :
    (bt_call_enter n).children = n.children := by
  unfold bt_call_enter
  split <;> simp

@[simp] theorem bt_call_exit_data (n : bt_node) :
    (bt_call_exit n).data =
      { n.data with exit_count :=
          n.data.exit_count + (if n.data.has_on_exit then 1 else 0) } := by
  cases n with
  | mk d cs =>
    cases d
    unfold bt_call_exit
    dsimp only [bt_node.data_mk, bt_node.data_withData]
    split <;> simp_all

@[simp] theorem bt_call_exit_children (n : bt_node) :
    (bt_call_exit n).children = n.children := by
  unfold bt_call_exit
  split <;> simp

@[simp] theorem bt_set_status_mk (d : bt_node_data) (cs : List (Option bt_node))
    (s : bt_status) :
    bt_set_status (bt_node.mk d cs) s = bt_node.mk { d with status := s } cs := rfl

@[simp] theorem bt_set_cursor_mk (d : bt_node_data) (cs : List (Option bt_node))
    (i : Nat) :
    bt_set_cursor (bt_node.mk d cs) i = bt_node.mk { d with current_child := i } cs := rfl

@[simp] theorem bt_bump_tick_mk (d : bt_node_data) (cs : List (Option bt_node)) :
    bt_bump_tick (bt_node.mk d cs) =
      bt_node.mk { d with tick_count := d.tick_count + 1 } cs := rfl

@[simp] theorem bt_withChildren_mk (d : bt_node_data) (cs cs2 : List (Option bt_node)) :
    (bt_node.mk d cs).withChildren cs2 = bt_node.mk d cs2 := rfl

@[simp] theorem bt_withData_mk (d d2 : bt_node_data) (cs : List (Option bt_node)) :
    (bt_node.mk d cs).withData d2 = bt_node.mk d2 cs := rfl

@[simp] theorem bt_call_enter_mk (d : bt_node_data) (cs : List (Option bt_node)) :
    bt_call_enter (bt_node.mk d cs) =
      bt_node.mk
        { d with enter_count := d.enter_count + (if d.has_on_enter then 1 else 0) } cs := by
  cases d with
  | mk ty st tk cc he hx ta ud bb ca tc ec xc =>
    cases he <;> simp [bt_call_enter]

@[simp] theorem bt_call_exit_mk (d : bt_node_data) (cs : List (Option bt_node)) :
    bt_call_exit (bt_node.mk d cs) =
      bt_node.mk
        { d with exit_count := d.exit_count + (if d.has_on_exit then 1 else 0) } cs := by
  cases d with
  | mk ty st tk cc he hx ta ud bb ca tc ec xc =>
    cases hx <;> simp [bt_call_exit]

/-! ## Lemmas on the Sequence child loop -/

/-- The loop agrees with the claim-side scan `bt_seq_scan` on the final
cursor and on the combined outcome (the break status, or `success` on
exhaustion). -/
theorem bt_seq_go_scan (tick1 : bt_node → bt_node × bt_status) :
    ∀ (rest : List (Option bt_node)) (i : Nat),
      (bt_seq_go tick1 i i rest).2.1 = (bt_seq_scan i (rest.map (bt_child_res tick1))).1 ∧
      (bt_seq_go tick1 i i rest).2.2.getD bt_status.success
        = (bt_seq_scan i (rest.map (bt_child_res tick1))).2 := by
  intro rest
  induction rest with
  | nil => intro i; simp [bt_seq_go, bt_seq_scan]
  | cons hd tl ih =>
    intro i
    cases hd with
    | none => simp [bt_seq_go, bt_seq_scan, bt_child_res]
    | some child =>
      rcases h : tick1 child with ⟨child', cs⟩
      cases cs <;> simp [bt_seq_go, bt_seq_scan, bt_child_res, h, ih]

/-- Cursor bounds of the loop: the cursor never moves left; exhaustion puts
it exactly one past the last child; a break leaves it strictly inside the
slice. -/
theorem bt_seq_go_cursor (tick1 : bt_node → bt_node × bt_status) :
    ∀ (rest : List (Option bt_node)) (i : Nat),
      i ≤ (bt_seq_go tick1 i i rest).2.1 ∧
      ((bt_seq_go tick1 i i rest).2.2 = none →
        (bt_seq_go tick1 i i rest).2.1 = i + rest.length) ∧
      ((bt_seq_go tick1 i i rest).2.2 ≠ none →
        (bt_seq_go tick1 i i rest).2.1 < i + rest.length) := by
  intro rest
  induction rest with
  | nil => intro i; simp [bt_seq_go]
  | cons hd tl ih =>
    intro i
    cases hd with
    | none => simp [bt_seq_go]
    | some child =>
      rcases h : tick1 child with ⟨child', cs⟩
      rcases ih (i + 1) with ⟨ih1, ih2, ih3⟩
      cases cs <;> simp [bt_seq_go, h] <;> constructor
      · omega
      · constructor
        · intro hnone; rw [ih2 hnone]; omega
        · intro hsome; have := ih3 hsome; omega

/-- The loop preserves the length of the slice. -/
theorem bt_seq_go_length (tick1 : bt_node → bt_node × bt_status) :
    ∀ (rest : List (Option bt_node)) (i cur : Nat),
      ((bt_seq_go tick1 i cur rest).1).length = rest.length := by
  intro rest
  induction rest with
  | nil => intro i cur; simp [bt_seq_go]
  | cons hd tl ih =>
    intro i cur
    cases hd with
    | none => simp [bt_seq_go]
    | some child =>
      rcases h : tick1 child with ⟨child', cs⟩
      cases cs <;> simp [bt_seq_go, h, ih]

/-- Every slot of the updated slice is either the original slot or the
once-ticked image of the original child in that slot. -/
theorem bt_seq_go_mem (tick1 : bt_node → bt_node × bt_status) :
    ∀ (rest : List (Option bt_node)) (i cur : Nat) (x : Option bt_node),
      x ∈ (bt_seq_go tick1 i cur rest).1 →
      x ∈ rest ∨ ∃ c, some c ∈ rest ∧ x = some (tick1 c).1 := by
  intro rest
  induction rest with
  | nil => intro i cur x hx; simp [bt_seq_go] at hx
  | cons hd tl ih =>
    intro i cur x hx
    cases hd with
    | none =>
      rw [show (bt_seq_go tick1 i cur (none :: tl)).1 = none :: tl from rfl] at hx
      exact Or.inl hx
    | some child =>
      rcases h : tick1 child with ⟨child', cs⟩
      cases cs
      case success =>
        have hout : (bt_seq_go tick1 i cur (some child :: tl)).1
            = some child' :: (bt_seq_go tick1 (i + 1) (i + 1) tl).1 := by
          simp [bt_seq_go, h]
        rw [hout] at hx
        rcases List.mem_cons.mp hx with hx | hx
        · right; exact ⟨child, List.mem_cons_self _ _, by rw [hx, h]⟩
        · rcases ih (i + 1) (i + 1) x hx with hmem | ⟨c, hc, hcx⟩
          · exact Or.inl (List.mem_cons_of_mem _ hmem)
          · exact Or.inr ⟨c, List.mem_cons_of_mem _ hc, hcx⟩
      all_goals
        have hout : (bt_seq_go tick1 i cur (some child :: tl)).1 = some child' :: tl := by
          simp [bt_seq_go, h]
        rw [hout] at hx
        rcases List.mem_cons.mp hx with hx | hx
        · right; exact ⟨child, List.mem_cons_self _ _, by rw [hx, h]⟩
        · exact Or.inl (List.mem_cons_of_mem _ hx)

/-- Slots strictly after the break position are untouched by the loop. -/
theorem bt_seq_go_tail (tick1 : bt_node → bt_node × bt_status) :
    ∀ (rest : List (Option bt_node)) (i : Nat),
      (bt_seq_go tick1 i i rest).2.2 ≠ none →
      ∀ j : Nat, (bt_seq_go tick1 i i rest).2.1 - i < j →
        ((bt_seq_go tick1 i i rest).1).get? j = rest.get? j := by
  intro rest
  induction rest with
  | nil => intro i hbrk; simp [bt_seq_go] at hbrk
  | cons hd tl ih =>
    intro i hbrk j hj
    cases hd with
    | none =>
      rw [show (bt_seq_go tick1 i i (none :: tl)).1 = none :: tl from rfl]
    | some child =>
      rcases h : tick1 child with ⟨child', cs⟩
      cases cs
      case success =>
        have hbound := (bt_seq_go_cursor tick1 tl (i + 1)).1
        have hout : (bt_seq_go tick1 i i (some child :: tl)).1
            = some child' :: (bt_seq_go tick1 (i + 1) (i + 1) tl).1 := by
          simp [bt_seq_go, h]
        have hcur : (bt_seq_go tick1 i i (some child :: tl)).2.1
            = (bt_seq_go tick1 (i + 1) (i + 1) tl).2.1 := by
          simp [bt_seq_go, h]
        have hbrk2 : (bt_seq_go tick1 i i (some child :: tl)).2.2
            = (bt_seq_go tick1 (i + 1) (i + 1) tl).2.2 := by
          simp [bt_seq_go, h]
        rw [hbrk2] at hbrk
        rw [hcur] at hj
        rw [hout]
        cases j with
        | zero => omega
        | succ j2 =>
          simp only [List.get?_cons_succ]
          exact ih (i + 1) hbrk j2 (by omega)
      all_goals
        have hout : (bt_seq_go tick1 i i (some child :: tl)).1 = some child' :: tl := by
          simp [bt_seq_go, h]
        have hcur : (bt_seq_go tick1 i i (some child :: tl)).2.1 = i := by
          simp [bt_seq_go, h]
        rw [hcur] at hj
        rw [hout]
        cases j with
        | zero => omega
        | succ j2 => simp

/-- The first slot of the slice, when it holds a child, is replaced by the
once-ticked image of that child, whatever its result. -/
theorem bt_seq_go_head (tick1 : bt_node → bt_node × bt_status)
    (c : bt_node) (rest : List (Option bt_node)) (i cur : Nat) :
    ((bt_seq_go tick1 i cur (some c :: rest)).1).get? 0 = some (some ((tick1 c).1)) := by
  rcases h : tick1 c with ⟨child', cs⟩
  cases cs <;> simp [bt_seq_go, h]

/-- Combined effect of one Sequence tick on a node, read off from the
handler: the loop runs from the entry cursor, the final status and result
are the break status (or `success` on exhaustion), and the hook counters
advance according to the fresh-entry and terminal-result conditions.  This
is the proved normal form of `bt_tick_sequence`, used by the claim
theorems. -/
def bt_seq_model (tick1 : bt_node → bt_node × bt_status) (d : bt_node_data)
    (cs : List (Option bt_node)) : bt_node × bt_status :=
  let c0 := if d.status ≠ bt_status.running then 0 else d.current_child
  let g := bt_seq_go tick1 c0 c0 (cs.drop c0)
  let st := g.2.2.getD bt_status.success
  (bt_node.mk
    { d with status := st
             current_child := g.2.1
             enter_count := d.enter_count +
               (if d.status ≠ bt_status.running ∧ d.has_on_enter then 1 else 0)
             exit_count := d.exit_count +
               (if st ≠ bt_status.running ∧ d.has_on_exit then 1 else 0) }
    (cs.take c0 ++ g.1), st)

/-- The C trichotomy test `result == SUCCESS || result == FAILURE ||
result == ERROR` is exactly `result != RUNNING`. -/
@[simp] theorem bt_terminal_iff (s : bt_status) :
    (s = bt_status.success ∨ s = bt_status.failure ∨ s = bt_status.error) ↔
      s ≠ bt_status.running := by
  cases s <;> simp

theorem bt_tick_sequence_eq (tick1 : bt_node → bt_node × bt_status)
    (d : bt_node_data) (cs : List (Option bt_node)) :
    bt_tick_sequence tick1 (bt_node.mk d cs) = bt_seq_model tick1 d cs := by
  by_cases hfresh : d.status = bt_status.running
  · -- resumed episode: no reset, no enter hook
    rcases hg : bt_seq_go tick1 d.current_child d.current_child (cs.drop d.current_child)
      with ⟨out, cur, brk⟩
    have hlen : out.length = cs.length - d.current_child := by
      have h0 := bt_seq_go_length tick1 (cs.drop d.current_child)
        d.current_child d.current_child
      rw [hg] at h0; simpa using h0
    cases brk with
    | some st =>
      have hcur : cur < d.current_child + (cs.length - d.current_child) := by
        have h0 := (bt_seq_go_cursor tick1 (cs.drop d.current_child) d.current_child).2.2
        rw [hg] at h0
        have h1 := h0 (by simp)
        simpa using h1
      have hcs : d.current_child ≤ cs.length := by
        by_contra hlt
        have hdrop : cs.drop d.current_child = [] := List.drop_eq_nil_of_le (by omega)
        rw [hdrop] at hg
        simp [bt_seq_go] at hg
      have hcomp : ¬ (min d.current_child cs.length + (cs.length - d.current_child) ≤ cur) := by
        omega
      simp [bt_tick_sequence, bt_seq_model, bt_children_count, hfresh, hg, hlen, hcomp]
      split <;> simp_all
    | none =>
      have hcur : cur = d.current_child + (cs.length - d.current_child) := by
        have h0 := (bt_seq_go_cursor tick1 (cs.drop d.current_child) d.current_child).2.1
        rw [hg] at h0
        simpa using h0 rfl
      have hcomp : min d.current_child cs.length + (cs.length - d.current_child) ≤ cur := by
        omega
      simp [bt_tick_sequence, bt_seq_model, bt_children_count, hfresh, hg, hlen, hcomp]
  · -- fresh episode: reset cursor to 0, fire enter hook
    rcases hg : bt_seq_go tick1 0 0 cs with ⟨out, cur, brk⟩
    have hlen : out.length = cs.length := by
      have h0 := bt_seq_go_length tick1 cs 0 0
      rw [hg] at h0; exact h0
    cases brk with
    | some st =>
      have hcur : cur < cs.length := by
        have h0 := (bt_seq_go_cursor tick1 cs 0).2.2
        rw [hg] at h0
        have h1 := h0 (by simp)
        simpa using h1
      have hcomp : ¬ (cs.length ≤ cur) := by omega
      simp [bt_tick_sequence, bt_seq_model, bt_children_count, hfresh, hg, hlen, hcomp]
      split <;> simp_all
    | none =>
      have hcur : cur = cs.length := by
        have h0 := (bt_seq_go_cursor tick1 cs 0).2.1
        rw [hg] at h0
        simpa using h0 rfl
      simp [bt_tick_sequence, bt_seq_model, bt_children_count, hfresh, hg, hlen, hcur]

/-! ## Lemmas on the Selector child loop -/

/-- The loop agrees with the claim-side scan `bt_sel_scan` on the final
cursor and on the combined outcome (the break status, or `failure` on
exhaustion). -/
theorem bt_sel_go_scan (tick1 : bt_node → bt_node × bt_status) :
    ∀ (rest : List (Option bt_node)) (i : Nat),
      (bt_sel_go tick1 i i rest).2.1 = (bt_sel_scan i (rest.map (bt_child_res tick1))).1 ∧
      (bt_sel_go tick1 i i rest).2.2.getD bt_status.failure
        = (bt_sel_scan i (rest.map (bt_child_res tick1))).2 := by
  intro rest
  induction rest with
  | nil => intro i; simp [bt_sel_go, bt_sel_scan]
  | cons hd tl ih =>
    intro i
    cases hd with
    | none => simp [bt_sel_go, bt_sel_scan, bt_child_res]
    | some child =>
      rcases h : tick1 child with ⟨child', cs⟩
      cases cs <;> simp [bt_sel_go, bt_sel_scan, bt_child_res, h, ih]

/-- Cursor bounds of the loop: the cursor never moves left; exhaustion puts
it exactly one past the last child; a break leaves it strictly inside the
slice. -/
theorem bt_sel_go_cursor (tick1 : bt_node → bt_node × bt_status) :
    ∀ (rest : List (Option bt_node)) (i : Nat),
      i ≤ (bt_sel_go tick1 i i rest).2.1 ∧
      ((bt_sel_go tick1 i i rest).2.2 = none →
        (bt_sel_go tick1 i i rest).2.1 = i + rest.length) ∧
      ((bt_sel_go tick1 i i rest).2.2 ≠ none →
        (bt_sel_go tick1 i i rest).2.1 < i + rest.length) := by
  intro rest
  induction rest with
  | nil => intro i; simp [bt_sel_go]
  | cons hd tl ih =>
    intro i
    cases hd with
    | none => simp [bt_sel_go]
    | some child =>
      rcases h : tick1 child with ⟨child', cs⟩
      rcases ih (i + 1) with ⟨ih1, ih2, ih3⟩
      cases cs <;> simp [bt_sel_go, h] <;> constructor
      · omega
      · constructor
        · intro hnone; rw [ih2 hnone]; omega
        · intro hsome; have := ih3 hsome; omega

/-- The loop preserves the length of the slice. -/
theorem bt_sel_go_length (tick1 : bt_node → bt_node × bt_status) :
    ∀ (rest : List (Option bt_node)) (i cur : Nat),
      ((bt_sel_go tick1 i cur rest).1).length = rest.length := by
  intro rest
  induction rest with
  | nil => intro i cur; simp [bt_sel_go]
  | cons hd tl ih =>
    intro i cur
    cases hd with
    | none => simp [bt_sel_go]
    | some child =>
      rcases h : tick1 child with ⟨child', cs⟩
      cases cs <;> simp [bt_sel_go, h, ih]

/-- Every slot of the updated slice is either the original slot or the
once-ticked image of the original child in that slot. -/
theorem bt_sel_go_mem (tick1 : bt_node → bt_node × bt_status) :
    ∀ (rest : List (Option bt_node)) (i cur : Nat) (x : Option bt_node),
      x ∈ (bt_sel_go tick1 i cur rest).1 →
      x ∈ rest ∨ ∃ c, some c ∈ rest ∧ x = some (tick1 c).1 := by
  intro rest
  induction rest with
  | nil => intro i cur x hx; simp [bt_sel_go] at hx
  | cons hd tl ih =>
    intro i cur x hx
    cases hd with
    | none =>
      rw [show (bt_sel_go tick1 i cur (none :: tl)).1 = none :: tl from rfl] at hx
      exact Or.inl hx
    | some child =>
      rcases h : tick1 child with ⟨child', cs⟩
      cases cs
      case failure =>
        have hout : (bt_sel_go tick1 i cur (some child :: tl)).1
            = some child' :: (bt_sel_go tick1 (i + 1) (i + 1) tl).1 := by
          simp [bt_sel_go, h]
        rw [hout] at hx
        rcases List.mem_cons.mp hx with hx | hx
        · right; exact ⟨child, List.mem_cons_self _ _, by rw [hx, h]⟩
        · rcases ih (i + 1) (i + 1) x hx with hmem | ⟨c, hc, hcx⟩
          · exact Or.inl (List.mem_cons_of_mem _ hmem)
          · exact Or.inr ⟨c, List.mem_cons_of_mem _ hc, hcx⟩
      all_goals
        have hout : (bt_sel_go tick1 i cur (some child :: tl)).1 = some child' :: tl := by
          simp [bt_sel_go, h]
        rw [hout] at hx
        rcases List.mem_cons.mp hx with hx | hx
        · right; exact ⟨child, List.mem_cons_self _ _, by rw [hx, h]⟩
        · exact Or.inl (List.mem_cons_of_mem _ hx)

/-- Slots strictly after the break position are untouched by the loop. -/
theorem bt_sel_go_tail (tick1 : bt_node → bt_node × bt_status) :
    ∀ (rest : List (Option bt_node)) (i : Nat),
      (bt_sel_go tick1 i i rest).2.2 ≠ none →
      ∀ j : Nat, (bt_sel_go tick1 i i rest).2.1 - i < j →
        ((bt_sel_go tick1 i i rest).1).get? j = rest.get? j := by
  intro rest
  induction rest with
  | nil => intro i hbrk; simp [bt_sel_go] at hbrk
  | cons hd tl ih =>
    intro i hbrk j hj
    cases hd with
    | none =>
      rw [show (bt_sel_go tick1 i i (none :: tl)).1 = none :: tl from rfl]
    | some child =>
      rcases h : tick1 child with ⟨child', cs⟩
      cases cs
      case failure =>
        have hbound := (bt_sel_go_cursor tick1 tl (i + 1)).1
        have hout : (bt_sel_go tick1 i i (some child :: tl)).1
            = some child' :: (bt_sel_go tick1 (i + 1) (i + 1) tl).1 := by
          simp [bt_sel_go, h]
        have hcur : (bt_sel_go tick1 i i (some child :: tl)).2.1
            = (bt_sel_go tick1 (i + 1) (i + 1) tl).2.1 := by
          simp [bt_sel_go, h]
        have hbrk2 : (bt_sel_go tick1 i i (some child :: tl)).2.2
            = (bt_sel_go tick1 (i + 1) (i + 1) tl).2.2 := by
          simp [bt_sel_go, h]
        rw [hbrk2] at hbrk
        rw [hcur] at hj
        rw [hout]
        cases j with
        | zero => omega
        | succ j2 =>
          simp only [List.get?_cons_succ]
          exact ih (i + 1) hbrk j2 (by omega)
      all_goals
        have hout : (bt_sel_go tick1 i i (some child :: tl)).1 = some child' :: tl := by
          simp [bt_sel_go, h]
        have hcur : (bt_sel_go tick1 i i (some child :: tl)).2.1 = i := by
          simp [bt_sel_go, h]
        rw [hcur] at hj
        rw [hout]
        cases j with
        | zero => omega
        | succ j2 => simp

/-- The first slot of the slice, when it holds a child, is replaced by the
once-ticked image of that child, whatever its result. -/
theorem bt_sel_go_head (tick1 : bt_node → bt_node × bt_status)
    (c : bt_node) (rest : List (Option bt_node)) (i cur : Nat) :
    ((bt_sel_go tick1 i cur (some c :: rest)).1).get? 0 = some (some ((tick1 c).1)) := by
  rcases h : tick1 c with ⟨child', cs⟩
  cases cs <;> simp [bt_sel_go, h]

/-- Combined effect of one Selector tick on a node, read off from the
handler: the loop runs from the entry cursor, the final status and result
are the break status (or `failure` on exhaustion), and the hook counters
advance according to the fresh-entry and terminal-result conditions.  This
is the proved normal form of `bt_tick_selector`, used by the claim
theorems. -/
def bt_sel_model (tick1 : bt_node → bt_node × bt_status) (d : bt_node_data)
    (cs : List (Option bt_node)) : bt_node × bt_status :=
  let c0 := if d.status ≠ bt_status.running then 0 else d.current_child
  let g := bt_sel_go tick1 c0 c0 (cs.drop c0)
  let st := g.2.2.getD bt_status.failure
  (bt_node.mk
    { d with status := st
             current_child := g.2.1
             enter_count := d.enter_count +
               (if d.status ≠ bt_status.running ∧ d.has_on_enter then 1 else 0)
             exit_count := d.exit_count +
               (if st ≠ bt_status.running ∧ d.has_on_exit then 1 else 0) }
    (cs.take c0 ++ g.1), st)


theorem bt_tick_selector_eq (tick1 : bt_node → bt_node × bt_status)
    (d : bt_node_data) (cs : List (Option bt_node)) :
    bt_tick_selector tick1 (bt_node.mk d cs) = bt_sel_model tick1 d cs := by
  by_cases hfresh : d.status = bt_status.running
  · -- resumed episode: no reset, no enter hook
    rcases hg : bt_sel_go tick1 d.current_child d.current_child (cs.drop d.current_child)
      with ⟨out, cur, brk⟩
    have hlen : out.length = cs.length - d.current_child := by
      have h0 := bt_sel_go_length tick1 (cs.drop d.current_child)
        d.current_child d.current_child
      rw [hg] at h0; simpa using h0
    cases brk with
    | some st =>
      have hcur : cur < d.current_child + (cs.length - d.current_child) := by
        have h0 := (bt_sel_go_cursor tick1 (cs.drop d.current_child) d.current_child).2.2
        rw [hg] at h0
        have h1 := h0 (by simp)
        simpa using h1
      have hcs : d.current_child ≤ cs.length := by
        by_contra hlt
        have hdrop : cs.drop d.current_child = [] := List.drop_eq_nil_of_le (by omega)
        rw [hdrop] at hg
        simp [bt_sel_go] at hg
      have hcomp : ¬ (min d.current_child cs.length + (cs.length - d.current_child) ≤ cur) := by
        omega
      simp [bt_tick_selector, bt_sel_model, bt_children_count, hfresh, hg, hlen, hcomp]
      split <;> simp_all
    | none =>
      have hcur : cur = d.current_child + (cs.length - d.current_child) := by
        have h0 := (bt_sel_go_cursor tick1 (cs.drop d.current_child) d.current_child).2.1
        rw [hg] at h0
        simpa using h0 rfl
      have hcomp : min d.current_child cs.length + (cs.length - d.current_child) ≤ cur := by
        omega
      simp [bt_tick_selector, bt_sel_model, bt_children_count, hfresh, hg, hlen, hcomp]
  · -- fresh episode: reset cursor to 0, fire enter hook
    rcases hg : bt_sel_go tick1 0 0 cs with ⟨out, cur, brk⟩
    have hlen : out.length = cs.length := by
      have h0 := bt_sel_go_length tick1 cs 0 0
      rw [hg] at h0; exact h0
    cases brk with
    | some st =>
      have hcur : cur < cs.length := by
        have h0 := (bt_sel_go_cursor tick1 cs 0).2.2
        rw [hg] at h0
        have h1 := h0 (by simp)
        simpa using h1
      have hcomp : ¬ (cs.length ≤ cur) := by omega
      simp [bt_tick_selector, bt_sel_model, bt_children_count, hfresh, hg, hlen, hcomp]
      split <;> simp_all
    | none =>
      have hcur : cur = cs.length := by
        have h0 := (bt_sel_go_cursor tick1 cs 0).2.1
        rw [hg] at h0
        simpa using h0 rfl
      simp [bt_tick_selector, bt_sel_model, bt_children_count, hfresh, hg, hlen, hcur]

/-! ## Normal forms of the leaf and Inverter handlers -/

theorem bt_tick_leaf_eq_none (d : bt_node_data) (cs : List (Option bt_node))
    (h : d.tick = none) :
    bt_tick_leaf (bt_node.mk d cs) =
      (bt_node.mk { d with status := bt_status.error } cs, bt_status.error) := by
  simp [bt_tick_leaf, h]

theorem bt_tick_leaf_eq_some (d : bt_node_data) (cs : List (Option bt_node))
    (f : Nat → bt_status) (h : d.tick = some f) :
    bt_tick_leaf (bt_node.mk d cs) =
      (bt_node.mk { d with status := f d.calls, calls := d.calls + 1 } cs, f d.calls) := by
  simp [bt_tick_leaf, h]

/-- A malformed Inverter (child-slot count different from 1) returns `error`
immediately: no hook fires, no child is ticked, no field changes. -/
theorem bt_tick_inverter_eq_badcount (tick1 : bt_node → bt_node × bt_status)
    (d : bt_node_data) (cs : List (Option bt_node)) (h : cs.length ≠ 1) :
    bt_tick_inverter tick1 (bt_node.mk d cs) = (bt_node.mk d cs, bt_status.error) := by
  simp [bt_tick_inverter, bt_children_count, h]

/-- An Inverter whose single child slot holds NULL: the enter hook fires on
a fresh episode, then the tick returns `error` without writing `status` and
without firing the exit hook. -/
theorem bt_tick_inverter_eq_nullchild (tick1 : bt_node → bt_node × bt_status)
    (d : bt_node_data) :
    bt_tick_inverter tick1 (bt_node.mk d [none]) =
      (bt_node.mk
        { d with enter_count := d.enter_count +
            (if d.status ≠ bt_status.running ∧ d.has_on_enter then 1 else 0) }
        [none], bt_status.error) := by
  by_cases hfresh : d.status = bt_status.running
  · have h2 : ¬ (d.status ≠ bt_status.running) := by simp [hfresh]
    simp [bt_tick_inverter, bt_children_count, bt_child_at, h2]
  · simp [bt_tick_inverter, bt_children_count, bt_child_at, hfresh]

/-- A well-formed Inverter tick: the sole child is ticked once, the child's
result is mapped through `bt_invert` and stored in `status`, and the hooks
fire by the fresh-entry/terminal-result rules. -/
theorem bt_tick_inverter_eq_child (tick1 : bt_node → bt_node × bt_status)
    (d : bt_node_data) (c : bt_node) :
    bt_tick_inverter tick1 (bt_node.mk d [some c]) =
      (bt_node.mk
        { d with status := bt_invert (tick1 c).2
                 enter_count := d.enter_count +
                   (if d.status ≠ bt_status.running ∧ d.has_on_enter then 1 else 0)
                 exit_count := d.exit_count +
                   (if bt_invert (tick1 c).2 ≠ bt_status.running ∧ d.has_on_exit
                    then 1 else 0) }
        [some (tick1 c).1], bt_invert (tick1 c).2) := by
  rcases h : tick1 c with ⟨c2, s⟩
  by_cases hfresh : d.status = bt_status.running
  · have h2 : ¬ (d.status ≠ bt_status.running) := by simp [hfresh]
    cases s <;>
      simp [bt_tick_inverter, bt_children_count, bt_child_at, bt_invert, h, h2]
  · cases s <;>
      simp [bt_tick_inverter, bt_children_count, bt_child_at, bt_invert, h, hfresh]

/-! ## Dispatcher bridge lemmas -/

theorem bt_tick_fuel_leaf (f : Nat) (d : bt_node_data) (cs : List (Option bt_node))
    (h : d.type = bt_node_type.action ∨ d.type = bt_node_type.condition) :
    bt_tick_fuel (f + 1) (bt_node.mk d cs) =
      bt_tick_leaf (bt_node.mk { d with tick_count := d.tick_count + 1 } cs) := by
  rw [bt_tick_fuel_succ]
  rcases h with h | h <;> simp [bt_dispatch, h]

theorem bt_tick_fuel_sequence (f : Nat) (d : bt_node_data) (cs : List (Option bt_node))
    (h : d.type = bt_node_type.sequence) :
    bt_tick_fuel (f + 1) (bt_node.mk d cs) =
      bt_seq_model (bt_tick_fuel f) { d with tick_count := d.tick_count + 1 } cs := by
  rw [bt_tick_fuel_succ]
  simp [bt_dispatch, h, bt_tick_sequence_eq]

theorem bt_tick_fuel_selector (f : Nat) (d : bt_node_data) (cs : List (Option bt_node))
    (h : d.type = bt_node_type.selector) :
    bt_tick_fuel (f + 1) (bt_node.mk d cs) =
      bt_sel_model (bt_tick_fuel f) { d with tick_count := d.tick_count + 1 } cs := by
  rw [bt_tick_fuel_succ]
  simp [bt_dispatch, h, bt_tick_selector_eq]

theorem bt_tick_fuel_inverter (f : Nat) (d : bt_node_data) (cs : List (Option bt_node))
    (h : d.type = bt_node_type.inverter) :
    bt_tick_fuel (f + 1) (bt_node.mk d cs) =
      bt_tick_inverter (bt_tick_fuel f) (bt_node.mk { d with tick_count := d.tick_count + 1 } cs) := by
  rw [bt_tick_fuel_succ]
  simp [bt_dispatch, h]

/-! ## Size lemmas -/

theorem bt_size_pos (n : bt_node) : 1 ≤ bt_size n := by
  cases n with
  | mk d cs => simp [bt_size]

theorem bt_size_lt_of_mem :
    ∀ (l : List (Option bt_node)) (c : bt_node), some c ∈ l → bt_size c < bt_size_list l := by
  intro l
  induction l with
  | nil => intro c hc; simp at hc
  | cons hd tl ih =>
    intro c hc
    rcases List.mem_cons.mp hc with hc | hc
    · rw [← hc]
      simp [bt_size_list]
      omega
    · have h1 := ih c hc
      cases hd <;> simp [bt_size_list] <;> omega

/-! ## The frame relation (claim C10)

`bt_frame_eq a b` says `b` differs from `a` at most in the `status` and
`current_child` fields of the node and of its descendants (and in the
instrumentation counters, which model user-callback state rather than
fields of `bt_node_t`): the engine-owned structural fields `type`, `tick`,
`children` (as a pointer graph), `children_count`, `on_enter`, `on_exit`,
`time_anchor_ms`, `user_data` and `blackboard` all agree. -/

mutual

inductive bt_frame_eq : bt_node → bt_node → Prop where
  | mk : ∀ (d d2 : bt_node_data) (cs cs2 : List (Option bt_node)),
      d2.type = d.type → d2.tick = d.tick →
      d2.has_on_enter = d.has_on_enter → d2.has_on_exit = d.has_on_exit →
      d2.time_anchor_ms = d.time_anchor_ms → d2.user_data = d.user_data →
      d2.blackboard = d.blackboard →
      bt_frame_list cs cs2 → bt_frame_eq (.mk d cs) (.mk d2 cs2)

inductive bt_frame_list : List (Option bt_node) → List (Option bt_node) → Prop where
  | nil : bt_frame_list [] []
  | cons_none : ∀ xs ys, bt_frame_list xs ys → bt_frame_list (none :: xs) (none :: ys)
  | cons_some : ∀ x y xs ys, bt_frame_eq x y → bt_frame_list xs ys →
      bt_frame_list (some x :: xs) (some y :: ys)

end

theorem bt_frame_list_of_mem (l : List (Option bt_node))
    (h : ∀ c : bt_node, some c ∈ l → bt_frame_eq c c) : bt_frame_list l l := by
  induction l with
  | nil => exact .nil
  | cons hd tl ih =>
    cases hd with
    | none => exact .cons_none _ _ (ih fun c hc => h c (List.mem_cons_of_mem _ hc))
    | some c =>
      exact .cons_some _ _ _ _ (h c (List.mem_cons_self _ _))
        (ih fun c2 hc => h c2 (List.mem_cons_of_mem _ hc))

theorem bt_frame_eq_refl (n : bt_node) : bt_frame_eq n n := by
  generalize hk : bt_size n = k
  induction k using Nat.strong_induction_on generalizing n with
  | _ k ih =>
    cases n with
    | mk d cs =>
      refine .mk d d cs cs rfl rfl rfl rfl rfl rfl rfl ?_
      apply bt_frame_list_of_mem
      intro c hc
      have hlt : bt_size c < bt_size_list cs := bt_size_lt_of_mem cs c hc
      have hsz : bt_size (bt_node.mk d cs) = bt_size_list cs + 1 := by simp [bt_size]
      exact ih (bt_size c) (by omega) c rfl

theorem bt_frame_list_refl (l : List (Option bt_node)) : bt_frame_list l l :=
  bt_frame_list_of_mem l (fun c _ => bt_frame_eq_refl c)

theorem bt_frame_list_append {a c d : List (Option bt_node)} :
    ∀ {b : List (Option bt_node)}, bt_frame_list a b → bt_frame_list c d →
      bt_frame_list (a ++ c) (b ++ d) := by
  induction a with
  | nil =>
    intro b h1 h2
    cases h1
    simpa using h2
  | cons hd tl ih =>
    intro b h1 h2
    cases h1 with
    | cons_none xs ys h => exact .cons_none _ _ (ih h h2)
    | cons_some x y xs ys hxy h => exact .cons_some _ _ _ _ hxy (ih h h2)

theorem bt_seq_go_frame (tick1 : bt_node → bt_node × bt_status)
    (hchild : ∀ c : bt_node, bt_frame_eq c (tick1 c).1) :
    ∀ (rest : List (Option bt_node)) (i cur : Nat),
      bt_frame_list rest (bt_seq_go tick1 i cur rest).1 := by
  intro rest
  induction rest with
  | nil => intro i cur; exact .nil
  | cons hd tl ih =>
    intro i cur
    cases hd with
    | none =>
      rw [show (bt_seq_go tick1 i cur (none :: tl)).1 = none :: tl from rfl]
      exact .cons_none _ _ (bt_frame_list_refl tl)
    | some child =>
      rcases h : tick1 child with ⟨child', cs⟩
      have hc : bt_frame_eq child child' := by
        have h0 := hchild child
        rw [h] at h0; exact h0
      cases cs
      case success =>
        have hout : (bt_seq_go tick1 i cur (some child :: tl)).1
            = some child' :: (bt_seq_go tick1 (i + 1) (i + 1) tl).1 := by
          simp [bt_seq_go, h]
        rw [hout]
        exact .cons_some _ _ _ _ hc (ih (i + 1) (i + 1))
      all_goals
        have hout : (bt_seq_go tick1 i cur (some child :: tl)).1 = some child' :: tl := by
          simp [bt_seq_go, h]
        rw [hout]
        exact .cons_some _ _ _ _ hc (bt_frame_list_refl tl)

theorem bt_sel_go_frame (tick1 : bt_node → bt_node × bt_status)
    (hchild : ∀ c : bt_node, bt_frame_eq c (tick1 c).1) :
    ∀ (rest : List (Option bt_node)) (i cur : Nat),
      bt_frame_list rest (bt_sel_go tick1 i cur rest).1 := by
  intro rest
  induction rest with
  | nil => intro i cur; exact .nil
  | cons hd tl ih =>
    intro i cur
    cases hd with
    | none =>
      rw [show (bt_sel_go tick1 i cur (none :: tl)).1 = none :: tl from rfl]
      exact .cons_none _ _ (bt_frame_list_refl tl)
    | some child =>
      rcases h : tick1 child with ⟨child', cs⟩
      have hc : bt_frame_eq child child' := by
        have h0 := hchild child
        rw [h] at h0; exact h0
      cases cs
      case failure =>
        have hout : (bt_sel_go tick1 i cur (some child :: tl)).1
            = some child' :: (bt_sel_go tick1 (i + 1) (i + 1) tl).1 := by
          simp [bt_sel_go, h]
        rw [hout]
        exact .cons_some _ _ _ _ hc (ih (i + 1) (i + 1))
      all_goals
        have hout : (bt_sel_go tick1 i cur (some child :: tl)).1 = some child' :: tl := by
          simp [bt_sel_go, h]
        rw [hout]
        exact .cons_some _ _ _ _ hc (bt_frame_list_refl tl)

/-- One tick modifies at most `status`, `current_child` and the
instrumentation counters, on the node and its descendants: every
engine-owned structural field is preserved, at every fuel budget. -/
theorem bt_tick_fuel_frame : ∀ (fuel : Nat) (n : bt_node),
    bt_frame_eq n (bt_tick_fuel fuel n).1 := by
  intro fuel
  induction fuel with
  | zero => intro n; rw [bt_tick_fuel_zero]; exact bt_frame_eq_refl n
  | succ f ih =>
    intro n
    cases n with
    | mk d cs =>
      cases htype : d.type with
      | action =>
        cases htick : d.tick with
        | none =>
          rw [bt_tick_fuel_leaf f d cs (Or.inl htype)]
          rw [bt_tick_leaf_eq_none { d with tick_count := d.tick_count + 1 } cs
            (by simp [htick])]
          exact .mk _ _ _ _ rfl rfl rfl rfl rfl rfl rfl (bt_frame_list_refl cs)
        | some fn =>
          rw [bt_tick_fuel_leaf f d cs (Or.inl htype)]
          rw [bt_tick_leaf_eq_some { d with tick_count := d.tick_count + 1 } cs fn
            (by simp [htick])]
          exact .mk _ _ _ _ rfl rfl rfl rfl rfl rfl rfl (bt_frame_list_refl cs)
      | condition =>
        cases htick : d.tick with
        | none =>
          rw [bt_tick_fuel_leaf f d cs (Or.inr htype)]
          rw [bt_tick_leaf_eq_none { d with tick_count := d.tick_count + 1 } cs
            (by simp [htick])]
          exact .mk _ _ _ _ rfl rfl rfl rfl rfl rfl rfl (bt_frame_list_refl cs)
        | some fn =>
          rw [bt_tick_fuel_leaf f d cs (Or.inr htype)]
          rw [bt_tick_leaf_eq_some { d with tick_count := d.tick_count + 1 } cs fn
            (by simp [htick])]
          exact .mk _ _ _ _ rfl rfl rfl rfl rfl rfl rfl (bt_frame_list_refl cs)
      | sequence =>
        rw [bt_tick_fuel_sequence f d cs htype]
        simp only [bt_seq_model]
        refine .mk _ _ _ _ rfl rfl rfl rfl rfl rfl rfl ?_
        have happ := bt_frame_list_append
          (bt_frame_list_refl
            (cs.take (if d.status ≠ bt_status.running then 0 else d.current_child)))
          (bt_seq_go_frame (bt_tick_fuel f) ih
            (cs.drop (if d.status ≠ bt_status.running then 0 else d.current_child))
            (if d.status ≠ bt_status.running then 0 else d.current_child)
            (if d.status ≠ bt_status.running then 0 else d.current_child))
        rw [List.take_append_drop] at happ
        exact happ
      | selector =>
        rw [bt_tick_fuel_selector f d cs htype]
        simp only [bt_sel_model]
        refine .mk _ _ _ _ rfl rfl rfl rfl rfl rfl rfl ?_
        have happ := bt_frame_list_append
          (bt_frame_list_refl
            (cs.take (if d.status ≠ bt_status.running then 0 else d.current_child)))
          (bt_sel_go_frame (bt_tick_fuel f) ih
            (cs.drop (if d.status ≠ bt_status.running then 0 else d.current_child))
            (if d.status ≠ bt_status.running then 0 else d.current_child)
            (if d.status ≠ bt_status.running then 0 else d.current_child))
        rw [List.take_append_drop] at happ
        exact happ
      | inverter =>
        rw [bt_tick_fuel_inverter f d cs htype]
        match cs with
        | [] =>
          rw [bt_tick_inverter_eq_badcount _ _ _ (by simp)]
          exact .mk _ _ _ _ rfl rfl rfl rfl rfl rfl rfl .nil
        | none :: [] =>
          rw [bt_tick_inverter_eq_nullchild]
          exact .mk _ _ _ _ rfl rfl rfl rfl rfl rfl rfl (.cons_none _ _ .nil)
        | some c :: [] =>
          rw [bt_tick_inverter_eq_child]
          exact .mk _ _ _ _ rfl rfl rfl rfl rfl rfl rfl (.cons_some _ _ _ _ (ih c) .nil)
        | x :: y :: rest =>
          rw [bt_tick_inverter_eq_badcount _ _ _ (by simp)]
          exact .mk _ _ _ _ rfl rfl rfl rfl rfl rfl rfl (bt_frame_list_refl _)

/-! ## Corollaries of the frame relation -/

theorem bt_frame_eq_fields {a b : bt_node} (h : bt_frame_eq a b) :
    b.data.type = a.data.type ∧ b.data.tick = a.data.tick ∧
    b.data.has_on_enter = a.data.has_on_enter ∧ b.data.has_on_exit = a.data.has_on_exit ∧
    b.data.time_anchor_ms = a.data.time_anchor_ms ∧ b.data.user_data = a.data.user_data ∧
    b.data.blackboard = a.data.blackboard := by
  cases h with
  | mk d d2 cs cs2 h1 h2 h3 h4 h5 h6 h7 h8 => exact ⟨h1, h2, h3, h4, h5, h6, h7⟩

theorem bt_frame_eq_children_rel {a b : bt_node} (h : bt_frame_eq a b) :
    bt_frame_list a.children b.children := by
  cases h with
  | mk d d2 cs cs2 h1 h2 h3 h4 h5 h6 h7 h8 => exact h8

theorem bt_frame_list_length :
    ∀ {xs ys : List (Option bt_node)}, bt_frame_list xs ys → ys.length = xs.length := by
  intro xs
  induction xs with
  | nil => intro ys h; cases h; rfl
  | cons hd tl ih =>
    intro ys h
    cases h with
    | cons_none xs2 ys2 h2 => simp [ih h2]
    | cons_some x y xs2 ys2 hxy h2 => simp [ih h2]

theorem bt_frame_list_get? :
    ∀ {xs ys : List (Option bt_node)}, bt_frame_list xs ys → ∀ i : Nat,
      (xs.get? i = none ∧ ys.get? i = none) ∨
      (xs.get? i = some none ∧ ys.get? i = some none) ∨
      (∃ x y, xs.get? i = some (some x) ∧ ys.get? i = some (some y) ∧ bt_frame_eq x y) := by
  intro xs
  induction xs with
  | nil => intro ys h i; cases h; simp
  | cons hd tl ih =>
    intro ys h i
    cases h with
    | cons_none xs2 ys2 h2 =>
      cases i with
      | zero => right; left; simp
      | succ i2 => simpa using ih h2 i2
    | cons_some x y xs2 ys2 hxy h2 =>
      cases i with
      | zero => right; right; exact ⟨x, y, by simp, by simp, hxy⟩
      | succ i2 => simpa using ih h2 i2

theorem bt_frame_eq_children_count {a b : bt_node} (h : bt_frame_eq a b) :
    bt_children_count b = bt_children_count a := by
  unfold bt_children_count
  exact bt_frame_list_length (bt_frame_eq_children_rel h)

theorem bt_frame_eq_child_at {a b : bt_node} (h : bt_frame_eq a b) (i : Nat) :
    (bt_child_at a i = none → bt_child_at b i = none) ∧
    (∀ c, bt_child_at a i = some c →
      ∃ c2, bt_child_at b i = some c2 ∧ bt_frame_eq c c2) := by
  have hrel := bt_frame_list_get? (bt_frame_eq_children_rel h) i
  unfold bt_child_at
  rcases hrel with ⟨hx, hy⟩ | ⟨hx, hy⟩ | ⟨x, y, hx, hy, hxy⟩ <;> rw [hx, hy]
  · exact ⟨fun _ => rfl, fun c hc => by simp at hc⟩
  · exact ⟨fun _ => rfl, fun c hc => by simp at hc⟩
  · refine ⟨fun hc => by simp at hc, fun c hc => ?_⟩
    have hxc : x = c := by simpa using hc
    exact ⟨y, rfl, hxc ▸ hxy⟩

/-! ## Projections of the handler normal forms -/

theorem bt_seq_model_status (tick1 : bt_node → bt_node × bt_status)
    (d : bt_node_data) (cs : List (Option bt_node)) :
    ((bt_seq_model tick1 d cs).1).data.status = (bt_seq_model tick1 d cs).2 := by
  simp [bt_seq_model]

theorem bt_sel_model_status (tick1 : bt_node → bt_node × bt_status)
    (d : bt_node_data) (cs : List (Option bt_node)) :
    ((bt_sel_model tick1 d cs).1).data.status = (bt_sel_model tick1 d cs).2 := by
  simp [bt_sel_model]

theorem bt_seq_model_result (tick1 : bt_node → bt_node × bt_status)
    (d : bt_node_data) (cs : List (Option bt_node)) :
    (bt_seq_model tick1 d cs).2 =
      (bt_seq_scan (bt_entry_cursor (bt_node.mk d cs))
        ((cs.drop (bt_entry_cursor (bt_node.mk d cs))).map (bt_child_res tick1))).2 := by
  have h := (bt_seq_go_scan tick1
    (cs.drop (bt_entry_cursor (bt_node.mk d cs))) (bt_entry_cursor (bt_node.mk d cs))).2
  simpa [bt_seq_model, bt_entry_cursor] using h

theorem bt_seq_model_cursor (tick1 : bt_node → bt_node × bt_status)
    (d : bt_node_data) (cs : List (Option bt_node)) :
    ((bt_seq_model tick1 d cs).1).data.current_child =
      (bt_seq_scan (bt_entry_cursor (bt_node.mk d cs))
        ((cs.drop (bt_entry_cursor (bt_node.mk d cs))).map (bt_child_res tick1))).1 := by
  have h := (bt_seq_go_scan tick1
    (cs.drop (bt_entry_cursor (bt_node.mk d cs))) (bt_entry_cursor (bt_node.mk d cs))).1
  simpa [bt_seq_model, bt_entry_cursor] using h

theorem bt_sel_model_result (tick1 : bt_node → bt_node × bt_status)
    (d : bt_node_data) (cs : List (Option bt_node)) :
    (bt_sel_model tick1 d cs).2 =
      (bt_sel_scan (bt_entry_cursor (bt_node.mk d cs))
        ((cs.drop (bt_entry_cursor (bt_node.mk d cs))).map (bt_child_res tick1))).2 := by
  have h := (bt_sel_go_scan tick1
    (cs.drop (bt_entry_cursor (bt_node.mk d cs))) (bt_entry_cursor (bt_node.mk d cs))).2
  simpa [bt_sel_model, bt_entry_cursor] using h

theorem bt_sel_model_cursor (tick1 : bt_node → bt_node × bt_status)
    (d : bt_node_data) (cs : List (Option bt_node)) :
    ((bt_sel_model tick1 d cs).1).data.current_child =
      (bt_sel_scan (bt_entry_cursor (bt_node.mk d cs))
        ((cs.drop (bt_entry_cursor (bt_node.mk d cs))).map (bt_child_res tick1))).1 := by
  have h := (bt_sel_go_scan tick1
    (cs.drop (bt_entry_cursor (bt_node.mk d cs))) (bt_entry_cursor (bt_node.mk d cs))).1
  simpa [bt_sel_model, bt_entry_cursor] using h

theorem bt_seq_model_enter (tick1 : bt_node → bt_node × bt_status)
    (d : bt_node_data) (cs : List (Option bt_node)) :
    ((bt_seq_model tick1 d cs).1).data.enter_count =
      d.enter_count + (if d.status ≠ bt_status.running ∧ d.has_on_enter then 1 else 0) := by
  simp [bt_seq_model]

theorem bt_sel_model_enter (tick1 : bt_node → bt_node × bt_status)
    (d : bt_node_data) (cs : List (Option bt_node)) :
    ((bt_sel_model tick1 d cs).1).data.enter_count =
      d.enter_count + (if d.status ≠ bt_status.running ∧ d.has_on_enter then 1 else 0) := by
  simp [bt_sel_model]

theorem bt_seq_model_exit (tick1 : bt_node → bt_node × bt_status)
    (d : bt_node_data) (cs : List (Option bt_node)) :
    ((bt_seq_model tick1 d cs).1).data.exit_count =
      d.exit_count +
        (if (bt_seq_model tick1 d cs).2 ≠ bt_status.running ∧ d.has_on_exit
         then 1 else 0) := by
  simp [bt_seq_model]

theorem bt_sel_model_exit (tick1 : bt_node → bt_node × bt_status)
    (d : bt_node_data) (cs : List (Option bt_node)) :
    ((bt_sel_model tick1 d cs).1).data.exit_count =
      d.exit_count +
        (if (bt_sel_model tick1 d cs).2 ≠ bt_status.running ∧ d.has_on_exit
         then 1 else 0) := by
  simp [bt_sel_model]

/-! ## Status and result agreement -/

theorem bt_tick_leaf_status (n : bt_node) :
    ((bt_tick_leaf n).1).data.status = (bt_tick_leaf n).2 := by
  cases htick : n.data.tick <;> simp [bt_tick_leaf, htick]

/-- A child-slot list of length 1 whose slot resolves to a node is exactly
`[some c]`. -/
theorem bt_wf_inverter_shape (d : bt_node_data) (cs : List (Option bt_node))
    (h1 : cs.length = 1) (h2 : (bt_child_at (bt_node.mk d cs) 0).isSome) :
    ∃ c : bt_node, cs = [some c] := by
  cases cs with
  | nil => simp at h1
  | cons x tl =>
    cases tl with
    | nil =>
      cases x with
      | none => simp [bt_child_at] at h2
      | some c => exact ⟨c, rfl⟩
    | cons y tl2 => simp at h1

/-- After any tick on a non-malformed node (for the Inverter: exactly one
non-NULL child reference), the stored `status` equals the returned result. -/
theorem bt_status_eq_result (f : Nat) (d : bt_node_data) (cs : List (Option bt_node))
    (hwf : d.type = bt_node_type.inverter → ∃ c : bt_node, cs = [some c]) :
    ((bt_tick_fuel (f + 1) (bt_node.mk d cs)).1).data.status =
      (bt_tick_fuel (f + 1) (bt_node.mk d cs)).2 := by
  cases htype : d.type with
  | action => rw [bt_tick_fuel_leaf f d cs (Or.inl htype)]; exact bt_tick_leaf_status _
  | condition => rw [bt_tick_fuel_leaf f d cs (Or.inr htype)]; exact bt_tick_leaf_status _
  | sequence => rw [bt_tick_fuel_sequence f d cs htype]; exact bt_seq_model_status _ _ _
  | selector => rw [bt_tick_fuel_selector f d cs htype]; exact bt_sel_model_status _ _ _
  | inverter =>
    obtain ⟨c, rfl⟩ := hwf htype
    rw [bt_tick_fuel_inverter f d _ htype, bt_tick_inverter_eq_child]
    simp

/-! ## The cursor invariant (claim C9) -/

/-- Invariant `cursor <= children_count`, recursively at every node of the tree. -/
inductive bt_cursor_inv : bt_node → Prop where
  | mk : ∀ (d : bt_node_data) (cs : List (Option bt_node)),
      d.current_child ≤ cs.length →
      (∀ c : bt_node, some c ∈ cs → bt_cursor_inv c) →
      bt_cursor_inv (.mk d cs)

theorem bt_seq_go_le (tick1 : bt_node → bt_node × bt_status)
    (rest : List (Option bt_node)) (i : Nat) :
    (bt_seq_go tick1 i i rest).2.1 ≤ i + rest.length := by
  rcases hbrk : (bt_seq_go tick1 i i rest).2.2 with _ | st
  · rw [(bt_seq_go_cursor tick1 rest i).2.1 hbrk]
  · have h0 := (bt_seq_go_cursor tick1 rest i).2.2 (by simp [hbrk])
    omega

theorem bt_sel_go_le (tick1 : bt_node → bt_node × bt_status)
    (rest : List (Option bt_node)) (i : Nat) :
    (bt_sel_go tick1 i i rest).2.1 ≤ i + rest.length := by
  rcases hbrk : (bt_sel_go tick1 i i rest).2.2 with _ | st
  · rw [(bt_sel_go_cursor tick1 rest i).2.1 hbrk]
  · have h0 := (bt_sel_go_cursor tick1 rest i).2.2 (by simp [hbrk])
    omega

theorem bt_tick_fuel_cursor_inv : ∀ (fuel : Nat) (n : bt_node),
    bt_cursor_inv n → bt_cursor_inv (bt_tick_fuel fuel n).1 := by
  intro fuel
  induction fuel with
  | zero => intro n h; simpa using h
  | succ f ih =>
    intro n h
    cases h with
    | mk d cs hcur hcs =>
      cases htype : d.type with
      | action =>
        cases htick : d.tick with
        | none =>
          rw [bt_tick_fuel_leaf f d cs (Or.inl htype)]
          rw [bt_tick_leaf_eq_none { d with tick_count := d.tick_count + 1 } cs
            (by simp [htick])]
          exact .mk _ _ hcur hcs
        | some fn =>
          rw [bt_tick_fuel_leaf f d cs (Or.inl htype)]
          rw [bt_tick_leaf_eq_some { d with tick_count := d.tick_count + 1 } cs fn
            (by simp [htick])]
          exact .mk _ _ hcur hcs
      | condition =>
        cases htick : d.tick with
        | none =>
          rw [bt_tick_fuel_leaf f d cs (Or.inr htype)]
          rw [bt_tick_leaf_eq_none { d with tick_count := d.tick_count + 1 } cs
            (by simp [htick])]
          exact .mk _ _ hcur hcs
        | some fn =>
          rw [bt_tick_fuel_leaf f d cs (Or.inr htype)]
          rw [bt_tick_leaf_eq_some { d with tick_count := d.tick_count + 1 } cs fn
            (by simp [htick])]
          exact .mk _ _ hcur hcs
      | sequence =>
        rw [bt_tick_fuel_sequence f d cs htype]
        simp only [bt_seq_model]
        refine .mk _ _ ?_ ?_
        · have hle := bt_seq_go_le (bt_tick_fuel f)
            (cs.drop (if d.status ≠ bt_status.running then 0 else d.current_child))
            (if d.status ≠ bt_status.running then 0 else d.current_child)
          have hlen := bt_seq_go_length (bt_tick_fuel f)
            (cs.drop (if d.status ≠ bt_status.running then 0 else d.current_child))
            (if d.status ≠ bt_status.running then 0 else d.current_child)
            (if d.status ≠ bt_status.running then 0 else d.current_child)
          simp only [List.length_append, List.length_take, List.length_drop] at *
          split at hle <;> simp_all
        · intro c hc
          rcases List.mem_append.mp hc with hc | hc
          · exact hcs c (List.mem_of_mem_take hc)
          · rcases bt_seq_go_mem (bt_tick_fuel f) _ _ _ _ hc with hc2 | ⟨c2, hc2, heq⟩
            · exact hcs c (List.mem_of_mem_drop hc2)
            · obtain rfl : c = (bt_tick_fuel f c2).1 := by simpa using heq
              exact ih c2 (hcs c2 (List.mem_of_mem_drop hc2))
      | selector =>
        rw [bt_tick_fuel_selector f d cs htype]
        simp only [bt_sel_model]
        refine .mk _ _ ?_ ?_
        · have hle := bt_sel_go_le (bt_tick_fuel f)
            (cs.drop (if d.status ≠ bt_status.running then 0 else d.current_child))
            (if d.status ≠ bt_status.running then 0 else d.current_child)
          have hlen := bt_sel_go_length (bt_tick_fuel f)
            (cs.drop (if d.status ≠ bt_status.running then 0 else d.current_child))
            (if d.status ≠ bt_status.running then 0 else d.current_child)
            (if d.status ≠ bt_status.running then 0 else d.current_child)
          simp only [List.length_append, List.length_take, List.length_drop] at *
          split at hle <;> simp_all
        · intro c hc
          rcases List.mem_append.mp hc with hc | hc
          · exact hcs c (List.mem_of_mem_take hc)
          · rcases bt_sel_go_mem (bt_tick_fuel f) _ _ _ _ hc with hc2 | ⟨c2, hc2, heq⟩
            · exact hcs c (List.mem_of_mem_drop hc2)
            · obtain rfl : c = (bt_tick_fuel f c2).1 := by simpa using heq
              exact ih c2 (hcs c2 (List.mem_of_mem_drop hc2))
      | inverter =>
        rw [bt_tick_fuel_inverter f d cs htype]
        match cs, hcur, hcs with
        | [], hcur, hcs =>
          rw [bt_tick_inverter_eq_badcount _ _ _ (by simp)]
          exact .mk _ _ hcur hcs
        | none :: [], hcur, hcs =>
          rw [bt_tick_inverter_eq_nullchild]
          exact .mk _ _ hcur hcs
        | some c :: [], hcur, hcs =>
          rw [bt_tick_inverter_eq_child]
          refine .mk _ _ (by simpa using hcur) ?_
          intro c2 hc2
          have hc2e : c2 = (bt_tick_fuel f c).1 := by simpa using hc2
          subst hc2e
          exact ih c (hcs c (List.mem_cons_self _ _))
        | x :: y :: rest, hcur, hcs =>
          rw [bt_tick_inverter_eq_badcount _ _ _ (by simp)]
          exact .mk _ _ hcur hcs

/-! ## Scan stop lemmas and tick counting -/

/-- If the first `p` results are `Success` and the `p`-th slot stops the
Sequence scan (missing child or non-Success result), the scan stops exactly
there: cursor `i + p`, status the stopping status (`error` for a missing
child). -/
theorem bt_seq_scan_stop : ∀ (p : Nat) (l : List (Option bt_status)) (i : Nat)
    (r : Option bt_status),
    (∀ q, q < p → l.get? q = some (some bt_status.success)) →
    l.get? p = some r → r ≠ some bt_status.success →
    bt_seq_scan i l = (i + p, r.getD bt_status.error) := by
  intro p
  induction p with
  | zero =>
    intro l i r hq hp hr
    cases l with
    | nil => simp at hp
    | cons hd tl =>
      have hhd : hd = r := by simpa using hp
      subst hhd
      cases hd with
      | none => simp [bt_seq_scan]
      | some s => cases s <;> simp [bt_seq_scan] <;> simp_all
  | succ p ih =>
    intro l i r hq hp hr
    cases l with
    | nil => simp at hp
    | cons hd tl =>
      have h0 : hd = some bt_status.success := by
        have := hq 0 (Nat.succ_pos p); simpa using this
      subst h0
      rw [show bt_seq_scan i (some bt_status.success :: tl) = bt_seq_scan (i + 1) tl from rfl]
      have hrec := ih tl (i + 1) r
        (fun q hq2 => by simpa using hq (q + 1) (by omega))
        (by simpa using hp) hr
      rw [hrec, show i + 1 + p = i + (p + 1) from by omega]

/-- Mirror image for the Selector scan: `Failure` advances, everything else
stops. -/
theorem bt_sel_scan_stop : ∀ (p : Nat) (l : List (Option bt_status)) (i : Nat)
    (r : Option bt_status),
    (∀ q, q < p → l.get? q = some (some bt_status.failure)) →
    l.get? p = some r → r ≠ some bt_status.failure →
    bt_sel_scan i l = (i + p, r.getD bt_status.error) := by
  intro p
  induction p with
  | zero =>
    intro l i r hq hp hr
    cases l with
    | nil => simp at hp
    | cons hd tl =>
      have hhd : hd = r := by simpa using hp
      subst hhd
      cases hd with
      | none => simp [bt_sel_scan]
      | some s => cases s <;> simp [bt_sel_scan] <;> simp_all
  | succ p ih =>
    intro l i r hq hp hr
    cases l with
    | nil => simp at hp
    | cons hd tl =>
      have h0 : hd = some bt_status.failure := by
        have := hq 0 (Nat.succ_pos p); simpa using this
      subst h0
      rw [show bt_sel_scan i (some bt_status.failure :: tl) = bt_sel_scan (i + 1) tl from rfl]
      have hrec := ih tl (i + 1) r
        (fun q hq2 => by simpa using hq (q + 1) (by omega))
        (by simpa using hp) hr
      rw [hrec, show i + 1 + p = i + (p + 1) from by omega]

/-- Every dispatched tick increments the node's invocation counter by
exactly one: the node is ticked exactly once per dispatch. -/
theorem bt_tick_fuel_tick_count (f : Nat) (d : bt_node_data) (cs : List (Option bt_node)) :
    ((bt_tick_fuel (f + 1) (bt_node.mk d cs)).1).data.tick_count = d.tick_count + 1 := by
  cases htype : d.type with
  | action =>
    cases htick : d.tick with
    | none =>
      rw [bt_tick_fuel_leaf f d cs (Or.inl htype),
        bt_tick_leaf_eq_none { d with tick_count := d.tick_count + 1 } cs (by simp [htick])]
      simp
    | some fn =>
      rw [bt_tick_fuel_leaf f d cs (Or.inl htype),
        bt_tick_leaf_eq_some { d with tick_count := d.tick_count + 1 } cs fn (by simp [htick])]
      simp
  | condition =>
    cases htick : d.tick with
    | none =>
      rw [bt_tick_fuel_leaf f d cs (Or.inr htype),
        bt_tick_leaf_eq_none { d with tick_count := d.tick_count + 1 } cs (by simp [htick])]
      simp
    | some fn =>
      rw [bt_tick_fuel_leaf f d cs (Or.inr htype),
        bt_tick_leaf_eq_some { d with tick_count := d.tick_count + 1 } cs fn (by simp [htick])]
      simp
  | sequence =>
    rw [bt_tick_fuel_sequence f d cs htype]
    simp [bt_seq_model]
  | selector =>
    rw [bt_tick_fuel_selector f d cs htype]
    simp [bt_sel_model]
  | inverter =>
    rw [bt_tick_fuel_inverter f d cs htype]
    match cs with
    | [] => rw [bt_tick_inverter_eq_badcount _ _ _ (by simp)]; simp
    | none :: [] => rw [bt_tick_inverter_eq_nullchild]; simp
    | some c :: [] => rw [bt_tick_inverter_eq_child]; simp
    | x :: y :: rest => rw [bt_tick_inverter_eq_badcount _ _ _ (by simp)]; simp

/-- A node with at least one resolved child slot has size at least 2, so
`bt_tick_internal` passes at least one unit of fuel to its children. -/
theorem bt_size_ge_two (d : bt_node_data) (cs : List (Option bt_node)) (c : bt_node)
    (h : some c ∈ cs) : 2 ≤ bt_size (bt_node.mk d cs) := by
  have h1 := bt_size_lt_of_mem cs c h
  have h2 := bt_size_pos c
  simp [bt_size]
  omega

theorem bt_seq_model_children (tick1 : bt_node → bt_node × bt_status)
    (d : bt_node_data) (cs : List (Option bt_node)) :
    ((bt_seq_model tick1 d cs).1).children =
      cs.take (bt_entry_cursor (bt_node.mk d cs)) ++
        (bt_seq_go tick1 (bt_entry_cursor (bt_node.mk d cs))
          (bt_entry_cursor (bt_node.mk d cs))
          (cs.drop (bt_entry_cursor (bt_node.mk d cs)))).1 := by
  simp [bt_seq_model, bt_entry_cursor]

theorem bt_sel_model_children (tick1 : bt_node → bt_node × bt_status)
    (d : bt_node_data) (cs : List (Option bt_node)) :
    ((bt_sel_model tick1 d cs).1).children =
      cs.take (bt_entry_cursor (bt_node.mk d cs)) ++
        (bt_sel_go tick1 (bt_entry_cursor (bt_node.mk d cs))
          (bt_entry_cursor (bt_node.mk d cs))
          (cs.drop (bt_entry_cursor (bt_node.mk d cs)))).1 := by
  simp [bt_sel_model, bt_entry_cursor]

/-! ## Resumption lemmas (claim C5) -/

/-- On a resumed Sequence tick (entry status `running`), child slots before
the stored cursor are untouched, and the slot at the cursor, when it
resolves to a child, holds exactly the once-ticked image of that child
afterwards. -/
theorem bt_seq_model_resume (tick1 : bt_node → bt_node × bt_status)
    (e : bt_node_data) (xs : List (Option bt_node))
    (hrun : e.status = bt_status.running) :
    (∀ j, j < e.current_child →
      ((bt_seq_model tick1 e xs).1).children.get? j = xs.get? j) ∧
    (∀ c, bt_child_at (bt_node.mk e xs) e.current_child = some c →
      bt_child_at ((bt_seq_model tick1 e xs).1) e.current_child
        = some ((tick1 c).1)) := by
  have hc0 : (if e.status ≠ bt_status.running then 0 else e.current_child)
      = e.current_child := by simp [hrun]
  constructor
  · intro j hj
    simp only [bt_seq_model, hc0, bt_node.children_mk]
    by_cases hjl : j < xs.length
    · rw [List.get?_append (by simp; omega), List.get?_take hj]
    · have hlen : (xs.take e.current_child ++
          (bt_seq_go tick1 e.current_child e.current_child
            (xs.drop e.current_child)).1).length = min e.current_child xs.length
            + (xs.length - e.current_child) := by
        simp [bt_seq_go_length]
      rw [List.get?_eq_none.mpr (by omega), List.get?_eq_none.mpr (by omega)]
  · intro c hc
    have hget : xs.get? e.current_child = some (some c) := by
      unfold bt_child_at at hc
      simp only [bt_node.children_mk] at hc
      rcases hx : xs.get? e.current_child with _ | x
      · rw [hx] at hc; simp at hc
      · rcases x with _ | c2
        · rw [hx] at hc; simp at hc
        · rw [hx] at hc
          simp at hc
          simp [hx, hc]
    have hcc : e.current_child < xs.length := by
      by_contra hn
      rw [List.get?_eq_none.mpr (by omega)] at hget
      simp at hget
    have hdrop : xs.drop e.current_child = some c :: xs.drop (e.current_child + 1) := by
      rw [List.drop_eq_getElem_cons hcc]
      congr 1
      have h1 : xs.get? e.current_child = xs[e.current_child]? := List.get?_eq_getElem? xs _
      rw [hget] at h1
      have h2 := List.getElem?_eq_getElem hcc
      rw [← h1] at h2
      exact (Option.some.injEq _ _).mp h2.symm
    unfold bt_child_at
    simp only [bt_seq_model, hc0, bt_node.children_mk]
    rw [List.get?_append_right (by simp)]
    have hidx : e.current_child - (xs.take e.current_child).length = 0 := by
      simp; omega
    rw [hidx, hdrop, bt_seq_go_head]

/-- Mirror image for the Selector model. -/
theorem bt_sel_model_resume (tick1 : bt_node → bt_node × bt_status)
    (e : bt_node_data) (xs : List (Option bt_node))
    (hrun : e.status = bt_status.running) :
    (∀ j, j < e.current_child →
      ((bt_sel_model tick1 e xs).1).children.get? j = xs.get? j) ∧
    (∀ c, bt_child_at (bt_node.mk e xs) e.current_child = some c →
      bt_child_at ((bt_sel_model tick1 e xs).1) e.current_child
        = some ((tick1 c).1)) := by
  have hc0 : (if e.status ≠ bt_status.running then 0 else e.current_child)
      = e.current_child := by simp [hrun]
  constructor
  · intro j hj
    simp only [bt_sel_model, hc0, bt_node.children_mk]
    by_cases hjl : j < xs.length
    · rw [List.get?_append (by simp; omega), List.get?_take hj]
    · have hlen : (xs.take e.current_child ++
          (bt_sel_go tick1 e.current_child e.current_child
            (xs.drop e.current_child)).1).length = min e.current_child xs.length
            + (xs.length - e.current_child) := by
        simp [bt_sel_go_length]
      rw [List.get?_eq_none.mpr (by omega), List.get?_eq_none.mpr (by omega)]
  · intro c hc
    have hget : xs.get? e.current_child = some (some c) := by
      unfold bt_child_at at hc
      simp only [bt_node.children_mk] at hc
      rcases hx : xs.get? e.current_child with _ | x
      · rw [hx] at hc; simp at hc
      · rcases x with _ | c2
        · rw [hx] at hc; simp at hc
        · rw [hx] at hc
          simp at hc
          simp [hx, hc]
    have hcc : e.current_child < xs.length := by
      by_contra hn
      rw [List.get?_eq_none.mpr (by omega)] at hget
      simp at hget
    have hdrop : xs.drop e.current_child = some c :: xs.drop (e.current_child + 1) := by
      rw [List.drop_eq_getElem_cons hcc]
      congr 1
      have h1 : xs.get? e.current_child = xs[e.current_child]? := List.get?_eq_getElem? xs _
      rw [hget] at h1
      have h2 := List.getElem?_eq_getElem hcc
      rw [← h1] at h2
      exact (Option.some.injEq _ _).mp h2.symm
    unfold bt_child_at
    simp only [bt_sel_model, hc0, bt_node.children_mk]
    rw [List.get?_append_right (by simp)]
    have hidx : e.current_child - (xs.take e.current_child).length = 0 := by
      simp; omega
    rw [hidx, hdrop, bt_sel_go_head]

/-! ## Hook law machinery (claim C6) -/

/-- Nodes to which the hook state machine of the spec applies: composites,
and Inverters with exactly one resolved child reference. -/
def bt_hookable (n : bt_node) : Prop :=
  n.data.type = bt_node_type.sequence ∨ n.data.type = bt_node_type.selector ∨
    (n.data.type = bt_node_type.inverter ∧ bt_children_count n = 1 ∧
      (bt_child_at n 0).isSome)

theorem bt_tick_fuel_enter_delta (f : Nat) (d : bt_node_data) (cs : List (Option bt_node))
    (hh : bt_hookable (bt_node.mk d cs)) :
    ((bt_tick_fuel (f + 1) (bt_node.mk d cs)).1).data.enter_count =
      d.enter_count +
        (if d.status ≠ bt_status.running ∧ d.has_on_enter then 1 else 0) := by
  rcases hh with hty | hty | ⟨hty, h1, h2⟩
  · rw [bt_tick_fuel_sequence f d cs hty]
    have h0 := bt_seq_model_enter (bt_tick_fuel f) { d with tick_count := d.tick_count + 1 } cs
    simpa using h0
  · rw [bt_tick_fuel_selector f d cs hty]
    have h0 := bt_sel_model_enter (bt_tick_fuel f) { d with tick_count := d.tick_count + 1 } cs
    simpa using h0
  · obtain ⟨c, rfl⟩ := bt_wf_inverter_shape d cs (by simpa [bt_children_count] using h1) h2
    rw [bt_tick_fuel_inverter f d _ (by simpa using hty), bt_tick_inverter_eq_child]
    simp

theorem bt_tick_fuel_exit_delta (f : Nat) (d : bt_node_data) (cs : List (Option bt_node))
    (hh : bt_hookable (bt_node.mk d cs)) :
    ((bt_tick_fuel (f + 1) (bt_node.mk d cs)).1).data.exit_count =
      d.exit_count +
        (if (bt_tick_fuel (f + 1) (bt_node.mk d cs)).2 ≠ bt_status.running ∧ d.has_on_exit
         then 1 else 0) := by
  rcases hh with hty | hty | ⟨hty, h1, h2⟩
  · rw [bt_tick_fuel_sequence f d cs hty]
    have h0 := bt_seq_model_exit (bt_tick_fuel f) { d with tick_count := d.tick_count + 1 } cs
    simpa using h0
  · rw [bt_tick_fuel_selector f d cs hty]
    have h0 := bt_sel_model_exit (bt_tick_fuel f) { d with tick_count := d.tick_count + 1 } cs
    simpa using h0
  · obtain ⟨c, rfl⟩ := bt_wf_inverter_shape d cs (by simpa [bt_children_count] using h1) h2
    rw [bt_tick_fuel_inverter f d _ (by simpa using hty), bt_tick_inverter_eq_child]
    simp

theorem bt_hookable_tick (f : Nat) (n : bt_node) (hh : bt_hookable n) :
    bt_hookable (bt_tick_fuel f n).1 := by
  have hfr := bt_tick_fuel_frame f n
  obtain ⟨hty, -, -, -, -, -, -⟩ := bt_frame_eq_fields hfr
  rcases hh with h | h | ⟨h, h1, h2⟩
  · left; rw [hty, h]
  · right; left; rw [hty, h]
  · right; right
    refine ⟨by rw [hty, h], ?_, ?_⟩
    · rw [bt_frame_eq_children_count hfr, h1]
    · rcases ho : bt_child_at n 0 with _ | c
      · rw [ho] at h2; simp at h2
      · obtain ⟨c2, hc2, -⟩ := (bt_frame_eq_child_at hfr 0).2 c ho
        rw [hc2]; simp

/-- Unfolding `bt_tick_internal` as the fuel interpreter at a positive budget. -/
theorem bt_tick_internal_eq_fuel (n : bt_node) :
    bt_tick_internal n = bt_tick_fuel (bt_size n - 1 + 1) n := by
  unfold bt_tick_internal
  have h0 := bt_size_pos n
  congr 1
  omega

theorem bt_tick_internal_enter_delta (n : bt_node) (hh : bt_hookable n) :
    ((bt_tick_internal n).1).data.enter_count =
      n.data.enter_count +
        (if n.data.status ≠ bt_status.running ∧ n.data.has_on_enter then 1 else 0) := by
  cases n with
  | mk d cs =>
    rw [bt_tick_internal_eq_fuel]
    exact bt_tick_fuel_enter_delta _ d cs hh

theorem bt_tick_internal_exit_delta (n : bt_node) (hh : bt_hookable n) :
    ((bt_tick_internal n).1).data.exit_count =
      n.data.exit_count +
        (if (bt_tick_internal n).2 ≠ bt_status.running ∧ n.data.has_on_exit
         then 1 else 0) := by
  cases n with
  | mk d cs =>
    rw [bt_tick_internal_eq_fuel]
    exact bt_tick_fuel_exit_delta _ d cs hh

theorem bt_tick_internal_status (n : bt_node) (hh : bt_hookable n) :
    ((bt_tick_internal n).1).data.status = (bt_tick_internal n).2 := by
  cases n with
  | mk d cs =>
    rw [bt_tick_internal_eq_fuel]
    apply bt_status_eq_result
    intro hty
    rcases hh with h | h | ⟨h, h1, h2⟩
    · simp at h; rw [h] at hty; cases hty
    · simp at h; rw [h] at hty; cases hty
    · exact bt_wf_inverter_shape d cs (by simpa [bt_children_count] using h1) h2

theorem bt_tick_internal_hookable (n : bt_node) (hh : bt_hookable n) :
    bt_hookable (bt_tick_internal n).1 := by
  rw [bt_tick_internal_eq_fuel]
  exact bt_hookable_tick _ n hh

theorem bt_tick_internal_hooks (n : bt_node) :
    ((bt_tick_internal n).1).data.has_on_enter = n.data.has_on_enter ∧
    ((bt_tick_internal n).1).data.has_on_exit = n.data.has_on_exit := by
  have hfr := bt_tick_fuel_frame (bt_size n) n
  obtain ⟨-, -, he, hx, -, -, -⟩ := bt_frame_eq_fields hfr
  exact ⟨he, hx⟩

theorem bt_run_shift (n : bt_node) : ∀ k : Nat, bt_run n (k + 1) = bt_run (bt_run n 1) k := by
  intro k
  induction k with
  | zero => rfl
  | succ k ih =>
    rw [show bt_run n (k + 1 + 1) = (bt_tick_internal (bt_run n (k + 1))).1 from rfl, ih]
    rfl

theorem bt_run_result_shift (n : bt_node) (k : Nat) :
    bt_run_result n (k + 1) = bt_run_result (bt_run n 1) k := by
  unfold bt_run_result
  rw [bt_run_shift]

/-- During the running phase of an episode (entry status `running`), no
enter hook fires, and the exit hook fires exactly once: at the tick whose
result is terminal. -/
theorem bt_episode_running (m : Nat) : ∀ (n : bt_node),
    bt_hookable n → n.data.has_on_exit = true →
    n.data.status = bt_status.running →
    (∀ i, i < m → bt_run_result n i = bt_status.running) →
    bt_run_result n m ≠ bt_status.running →
    (bt_run n (m + 1)).data.enter_count = n.data.enter_count ∧
    (bt_run n (m + 1)).data.exit_count = n.data.exit_count + 1 := by
  induction m with
  | zero =>
    intro n hh hX hrun hmid hterm
    have he := bt_tick_internal_enter_delta n hh
    have hx := bt_tick_internal_exit_delta n hh
    have hterm2 : (bt_tick_internal n).2 ≠ bt_status.running := hterm
    constructor
    · rw [show bt_run n 1 = (bt_tick_internal n).1 from rfl, he]
      simp [hrun]
    · rw [show bt_run n 1 = (bt_tick_internal n).1 from rfl, hx]
      simp [hterm2, hX]
  | succ m ih =>
    intro n hh hX hrun hmid hterm
    have h0 : (bt_tick_internal n).2 = bt_status.running := hmid 0 (Nat.succ_pos m)
    have hst : ((bt_tick_internal n).1).data.status = bt_status.running := by
      rw [bt_tick_internal_status n hh, h0]
    have hh1 : bt_hookable (bt_tick_internal n).1 := bt_tick_internal_hookable n hh
    have hX1 : ((bt_tick_internal n).1).data.has_on_exit = true := by
      rw [(bt_tick_internal_hooks n).2, hX]
    have hrun1 : bt_run n 1 = (bt_tick_internal n).1 := rfl
    have hmid1 : ∀ i, i < m → bt_run_result (bt_tick_internal n).1 i = bt_status.running := by
      intro i hi
      rw [← hrun1, ← bt_run_result_shift]
      exact hmid (i + 1) (by omega)
    have hterm1 : bt_run_result (bt_tick_internal n).1 m ≠ bt_status.running := by
      rw [← hrun1, ← bt_run_result_shift]
      exact hterm
    obtain ⟨ih1, ih2⟩ := ih (bt_tick_internal n).1 hh1 hX1 hst hmid1 hterm1
    have hsh : bt_run n (m + 1 + 1) = bt_run (bt_tick_internal n).1 (m + 1) := by
      rw [bt_run_shift, hrun1]
    constructor
    · rw [hsh, ih1, bt_tick_internal_enter_delta n hh]
      simp [hrun]
    · rw [hsh, ih2, bt_tick_internal_exit_delta n hh]
      simp [h0]

/-! ## Concrete nodes for witnesses and counterexamples -/

/-- Scalar data of a freshly `bt_init`-ed node of the given type and leaf
callback (hooks cleared, cursor 0, counters 0). -/
def bt_demo_data (ty : bt_node_type) (tf : Option (Nat → bt_status)) : bt_node_data :=
  { type := ty
    status := bt_status.failure
    tick := tf
    current_child := 0
    has_on_enter := false
    has_on_exit := false
    time_anchor_ms := 0
    user_data := 0
    blackboard := 0
    calls := 0
    tick_count := 0
    enter_count := 0
    exit_count := 0 }

/-- Like `bt_demo_data`, with both lifecycle hooks installed afterwards. -/
def bt_demo_data_h (ty : bt_node_type) (tf : Option (Nat → bt_status)) : bt_node_data :=
  { bt_demo_data ty tf with has_on_enter := true, has_on_exit := true }

/-- An Action leaf whose callback always succeeds. -/
def bt_leaf_success : bt_node :=
  .mk (bt_demo_data bt_node_type.action (some (fun _ => bt_status.success))) []

/-- A Condition leaf whose callback always fails. -/
def bt_leaf_failure : bt_node :=
  .mk (bt_demo_data bt_node_type.condition (some (fun _ => bt_status.failure))) []

/-- An Action leaf whose callback always errors. -/
def bt_leaf_error : bt_node :=
  .mk (bt_demo_data bt_node_type.action (some (fun _ => bt_status.error))) []

/-- An Action leaf that runs for one tick and then succeeds. -/
def bt_leaf_run1 : bt_node :=
  .mk (bt_demo_data bt_node_type.action
    (some (fun k => if k = 0 then bt_status.running else bt_status.success))) []

/-- A malformed Inverter: zero child slots. -/
def bt_bad_inverter : bt_node := .mk (bt_demo_data bt_node_type.inverter none) []

/-- A well-formed Inverter over an always-succeeding leaf. -/
def bt_wf_inverter : bt_node :=
  .mk (bt_demo_data bt_node_type.inverter none) [some bt_leaf_success]

/-- A two-child Sequence: an always-succeeding Condition, then a leaf that
needs two ticks (Scenario A shape). -/
def bt_seq2_data : bt_node_data := bt_demo_data_h bt_node_type.sequence none

def bt_seq2_node : bt_node := .mk bt_seq2_data [some bt_leaf_success, some bt_leaf_run1]

/-- A two-child Selector: an always-failing Condition, then an
always-succeeding Action (Scenario B shape). -/
def bt_sel2_data : bt_node_data := bt_demo_data_h bt_node_type.selector none

def bt_sel2_node : bt_node := .mk bt_sel2_data [some bt_leaf_failure, some bt_leaf_success]

/-! ## Claims -/

/-- Claim C1, counterexample to the claim as stated: ticking an Inverter
node with zero child slots returns `Error`, but the node's stored status
still holds the initial `BT_FAILURE`: the dispatcher did not write the
result into `node.status`, although the node is non-null. -/
theorem claim_C1_cex :
    (bt_tick_internal bt_bad_inverter).2 = bt_status.error ∧
    ((bt_tick_internal bt_bad_inverter).1).data.status ≠ bt_status.error ∧
    ((bt_tick_internal bt_bad_inverter).1).data.status = bt_status.failure := by
  have hsz : bt_size bt_bad_inverter = 1 := by
    simp [bt_bad_inverter, bt_size, bt_size_list]
  unfold bt_tick_internal
  rw [hsz]
  refine ⟨by decide, by decide, by decide⟩

/-- Claim C1 (amended): after `bt_tick` on a non-null node, the stored
`status` equals the returned result — except when the node is an Inverter
without exactly one resolved child reference, in which case the tick
returns `Error` and leaves `status` unchanged. -/
theorem claim_C1 (f : Nat) (d : bt_node_data) (cs : List (Option bt_node)) :
    ((d.type = bt_node_type.inverter →
        bt_children_count (bt_node.mk d cs) = 1 ∧
          (bt_child_at (bt_node.mk d cs) 0).isSome) →
      ((bt_tick_fuel (f + 1) (bt_node.mk d cs)).1).data.status =
        (bt_tick_fuel (f + 1) (bt_node.mk d cs)).2) ∧
    (d.type = bt_node_type.inverter →
      ¬ (bt_children_count (bt_node.mk d cs) = 1 ∧
          (bt_child_at (bt_node.mk d cs) 0).isSome) →
      (bt_tick_fuel (f + 1) (bt_node.mk d cs)).2 = bt_status.error ∧
      ((bt_tick_fuel (f + 1) (bt_node.mk d cs)).1).data.status = d.status) := by
  constructor
  · intro hwf
    apply bt_status_eq_result
    intro hty
    exact bt_wf_inverter_shape d cs
      (by simpa [bt_children_count] using (hwf hty).1) (hwf hty).2
  · intro hty hmal
    rw [bt_tick_fuel_inverter f d cs hty]
    match cs, hmal with
    | [], hmal =>
      rw [bt_tick_inverter_eq_badcount _ _ _ (by simp)]
      exact ⟨rfl, rfl⟩
    | none :: [], hmal =>
      rw [bt_tick_inverter_eq_nullchild]
      exact ⟨rfl, rfl⟩
    | some c :: [], hmal =>
      exact absurd ⟨by simp [bt_children_count], by simp [bt_child_at]⟩ hmal
    | x :: y :: rest, hmal =>
      rw [bt_tick_inverter_eq_badcount _ _ _ (by simp)]
      exact ⟨rfl, rfl⟩

/-- Witness for claim C1 at a well-formed Inverter with one resolved
child. -/
theorem claim_C1_witness :
    ((bt_demo_data bt_node_type.inverter none).type = bt_node_type.inverter →
      bt_children_count bt_wf_inverter = 1 ∧ (bt_child_at bt_wf_inverter 0).isSome) ∧
    ((bt_tick_fuel 1 bt_wf_inverter).1).data.status = (bt_tick_fuel 1 bt_wf_inverter).2 :=
  ⟨fun _ => ⟨by decide, by decide⟩,
   (claim_C1 0 (bt_demo_data bt_node_type.inverter none) [some bt_leaf_success]).1
     (fun _ => ⟨by decide, by decide⟩)⟩

/-- Claim C7, counterexample to the claim as stated: directly after
`bt_init` the stored status is `BT_FAILURE`, which is one of the terminal
values — not a distinct non-terminal sentinel. -/
theorem claim_C7_cex :
    (bt_init bt_bad_inverter bt_node_type.action none [] 0).data.status
        = bt_status.failure ∧
    ¬ ((bt_init bt_bad_inverter bt_node_type.action none [] 0).data.status
          ≠ bt_status.success ∧
       (bt_init bt_bad_inverter bt_node_type.action none [] 0).data.status
          ≠ bt_status.failure ∧
       (bt_init bt_bad_inverter bt_node_type.action none [] 0).data.status
          ≠ bt_status.error) := by
  refine ⟨rfl, ?_⟩
  intro h
  exact h.2.1 rfl

/-- Claim C7 (amended): `bt_init` sets `status` to `BT_FAILURE` — a
terminal value, not a separate sentinel — which is still different from
`Running`, and clears the cursor, so the first tick after construction is
always a fresh episode: the child loop enters at index 0, and on any
hook-bearing composite/decorator whose status is the init value
`BT_FAILURE`, the first tick fires `on_enter`. -/
theorem claim_C7 (n : bt_node) (ty : bt_node_type) (tf : Option (Nat → bt_status))
    (children : List (Option bt_node)) (ud : Nat) :
    (bt_init n ty tf children ud).data.status = bt_status.failure ∧
    (bt_init n ty tf children ud).data.status ≠ bt_status.running ∧
    (bt_init n ty tf children ud).data.current_child = 0 ∧
    bt_entry_cursor (bt_init n ty tf children ud) = 0 ∧
    (∀ (f : Nat) (d : bt_node_data) (cs : List (Option bt_node)),
      d.status = bt_status.failure → d.has_on_enter = true →
      bt_hookable (bt_node.mk d cs) →
      ((bt_tick_fuel (f + 1) (bt_node.mk d cs)).1).data.enter_count
        = d.enter_count + 1) := by
  refine ⟨rfl, by simp [bt_init], rfl, by simp [bt_entry_cursor, bt_init], ?_⟩
  intro f d cs hst he hh
  rw [bt_tick_fuel_enter_delta f d cs hh]
  simp [hst, he]

/-- Witness for claim C7: the hook-enabled Sequence data carries the init
status `BT_FAILURE`, and its first tick fires `on_enter` once. -/
theorem claim_C7_witness :
    bt_seq2_data.status = bt_status.failure ∧
    bt_seq2_data.has_on_enter = true ∧
    bt_hookable (bt_node.mk bt_seq2_data [some bt_leaf_success, some bt_leaf_run1]) ∧
    ((bt_tick_fuel 1 (bt_node.mk bt_seq2_data
        [some bt_leaf_success, some bt_leaf_run1])).1).data.enter_count
      = bt_seq2_data.enter_count + 1 :=
  ⟨rfl, rfl, Or.inl rfl,
   (claim_C7 bt_bad_inverter bt_node_type.action none [] 0).2.2.2.2 0 bt_seq2_data
     [some bt_leaf_success, some bt_leaf_run1] rfl rfl (Or.inl rfl)⟩

/-- Claim C9: the cursor invariant `0 <= cursor <= children_count` holds on
every node after `bt_init` (which zeroes the cursor) and is preserved,
recursively on the whole tree, by every tick at every fuel budget. -/
theorem claim_C9 :
    (∀ (n : bt_node) (ty : bt_node_type) (tf : Option (Nat → bt_status))
        (children : List (Option bt_node)) (ud : Nat),
      (bt_init n ty tf children ud).data.current_child = 0 ∧
      (bt_init n ty tf children ud).data.current_child ≤
        bt_children_count (bt_init n ty tf children ud)) ∧
    (∀ (fuel : Nat) (n : bt_node), bt_cursor_inv n → bt_cursor_inv (bt_tick_fuel fuel n).1) := by
  constructor
  · intro n ty tf children ud
    exact ⟨rfl, by simp [bt_init, bt_children_count]⟩
  · exact bt_tick_fuel_cursor_inv

/-- Witness for claim C9: the invariant holds on a concrete two-child
Sequence and is preserved by one tick on it. -/
theorem claim_C9_witness :
    bt_cursor_inv bt_seq2_node ∧ bt_cursor_inv (bt_tick_fuel 2 bt_seq2_node).1 := by
  have hleaf : ∀ (d : bt_node_data), d.current_child = 0 → bt_cursor_inv (bt_node.mk d []) := by
    intro d hd
    refine .mk _ _ (by simp [hd]) ?_
    intro c hc
    simp at hc
  have hinv : bt_cursor_inv bt_seq2_node := by
    refine .mk _ _ (by decide) ?_
    intro c hc
    simp [bt_seq2_node] at hc
    rcases hc with hc | hc
    · rw [hc]; exact hleaf _ rfl
    · rw [hc]; exact hleaf _ rfl
  exact ⟨hinv, claim_C9.2 2 bt_seq2_node hinv⟩

/-- Claim C10: one call of the tick engine mutates at most `status` and
`current_child` on the ticked node and its descendants (the instrumentation
counters model user-callback state, not `bt_node_t` fields): `type`, the
leaf callback, the children graph and its count, the hook pointers,
`time_anchor_ms`, `user_data` and `blackboard` are never written by the
engine, at any fuel budget — in particular by `bt_tick_internal`. -/
theorem claim_C10 :
    (∀ (fuel : Nat) (n : bt_node), bt_frame_eq n (bt_tick_fuel fuel n).1) ∧
    (∀ n : bt_node, bt_frame_eq n (bt_tick_internal n).1) := by
  exact ⟨bt_tick_fuel_frame, fun n => bt_tick_fuel_frame (bt_size n) n⟩

/-- The property claimed by C2, at one Sequence node with recursion budget
`f` for the children: the tick's result and final cursor are given by the
claim-side scan of the children's own tick results from the entry cursor,
the stored status equals the result, `on_enter` fires exactly on a fresh
entry, and zero children yield `Success`. -/
def bt_claim_C2_prop (f : Nat) (d : bt_node_data) (cs : List (Option bt_node)) : Prop :=
  (bt_tick_fuel (f + 1) (bt_node.mk d cs)).2 =
      (bt_seq_scan (bt_entry_cursor (bt_node.mk d cs))
        ((cs.drop (bt_entry_cursor (bt_node.mk d cs))).map
          (bt_child_res (bt_tick_fuel f)))).2 ∧
  ((bt_tick_fuel (f + 1) (bt_node.mk d cs)).1).data.current_child =
      (bt_seq_scan (bt_entry_cursor (bt_node.mk d cs))
        ((cs.drop (bt_entry_cursor (bt_node.mk d cs))).map
          (bt_child_res (bt_tick_fuel f)))).1 ∧
  ((bt_tick_fuel (f + 1) (bt_node.mk d cs)).1).data.status =
      (bt_tick_fuel (f + 1) (bt_node.mk d cs)).2 ∧
  ((bt_tick_fuel (f + 1) (bt_node.mk d cs)).1).data.enter_count =
      d.enter_count + (if d.status ≠ bt_status.running ∧ d.has_on_enter then 1 else 0) ∧
  (cs = [] → (bt_tick_fuel (f + 1) (bt_node.mk d cs)).2 = bt_status.success)

/-- Claim C2: one tick of a Sequence node behaves as the claim-side scan
`bt_seq_scan` over the children's results, starting at cursor 0 on a fresh
entry (firing `on_enter`) and at the stored cursor otherwise: a child's
`Running`/`Failure` stops there with that status and the cursor on that
child, `Error` or a missing child stops there with `Error`, `Success`
advances, exhaustion yields `Success` — in particular a Sequence with zero
children returns `Success` — and the final status is stored. -/
theorem claim_C2 (f : Nat) (d : bt_node_data) (cs : List (Option bt_node))
    (hty : d.type = bt_node_type.sequence) :
    bt_claim_C2_prop f d cs := by
  have hec : bt_entry_cursor (bt_node.mk { d with tick_count := d.tick_count + 1 } cs)
      = bt_entry_cursor (bt_node.mk d cs) := by
    simp [bt_entry_cursor]
  unfold bt_claim_C2_prop
  refine ⟨?_, ?_, ?_, ?_, ?_⟩
  · rw [bt_tick_fuel_sequence f d cs hty, bt_seq_model_result, hec]
  · rw [bt_tick_fuel_sequence f d cs hty, bt_seq_model_cursor, hec]
  · rw [bt_tick_fuel_sequence f d cs hty]
    exact bt_seq_model_status _ _ _
  · rw [bt_tick_fuel_sequence f d cs hty]
    have h0 := bt_seq_model_enter (bt_tick_fuel f) { d with tick_count := d.tick_count + 1 } cs
    simpa using h0
  · intro hnil
    subst hnil
    rw [bt_tick_fuel_sequence f d [] hty]
    simp [bt_seq_model, bt_seq_go]

/-- Witness for claim C2 at the two-child Sequence `bt_seq2_node`. -/
theorem claim_C2_witness :
    bt_seq2_data.type = bt_node_type.sequence ∧
    bt_claim_C2_prop 1 bt_seq2_data [some bt_leaf_success, some bt_leaf_run1] :=
  ⟨rfl, claim_C2 1 bt_seq2_data [some bt_leaf_success, some bt_leaf_run1] rfl⟩

/-- The property claimed by C3, mirror of `bt_claim_C2_prop` for a
Selector. -/
def bt_claim_C3_prop (f : Nat) (d : bt_node_data) (cs : List (Option bt_node)) : Prop :=
  (bt_tick_fuel (f + 1) (bt_node.mk d cs)).2 =
      (bt_sel_scan (bt_entry_cursor (bt_node.mk d cs))
        ((cs.drop (bt_entry_cursor (bt_node.mk d cs))).map
          (bt_child_res (bt_tick_fuel f)))).2 ∧
  ((bt_tick_fuel (f + 1) (bt_node.mk d cs)).1).data.current_child =
      (bt_sel_scan (bt_entry_cursor (bt_node.mk d cs))
        ((cs.drop (bt_entry_cursor (bt_node.mk d cs))).map
          (bt_child_res (bt_tick_fuel f)))).1 ∧
  ((bt_tick_fuel (f + 1) (bt_node.mk d cs)).1).data.status =
      (bt_tick_fuel (f + 1) (bt_node.mk d cs)).2 ∧
  ((bt_tick_fuel (f + 1) (bt_node.mk d cs)).1).data.enter_count =
      d.enter_count + (if d.status ≠ bt_status.running ∧ d.has_on_enter then 1 else 0) ∧
  ((bt_tick_fuel (f + 1) (bt_node.mk d cs)).1).data.exit_count =
      d.exit_count +
        (if (bt_tick_fuel (f + 1) (bt_node.mk d cs)).2 ≠ bt_status.running ∧ d.has_on_exit
         then 1 else 0) ∧
  (cs = [] → (bt_tick_fuel (f + 1) (bt_node.mk d cs)).2 = bt_status.failure)

/-- Claim C3: one tick of a Selector node is the Success/Failure mirror of
the Sequence: from the entry cursor, a child's `Running` stops with
`Running`, `Success` stops with `Success`, `Error` or a missing child stops
with `Error`, `Failure` advances, exhaustion yields `Failure` — in
particular a Selector with zero children returns `Failure`; the status is
stored, `on_enter` fires exactly on a fresh entry and `on_exit` exactly on
a terminal result. -/
theorem claim_C3 (f : Nat) (d : bt_node_data) (cs : List (Option bt_node))
    (hty : d.type = bt_node_type.selector) :
    bt_claim_C3_prop f d cs := by
  have hec : bt_entry_cursor (bt_node.mk { d with tick_count := d.tick_count + 1 } cs)
      = bt_entry_cursor (bt_node.mk d cs) := by
    simp [bt_entry_cursor]
  unfold bt_claim_C3_prop
  refine ⟨?_, ?_, ?_, ?_, ?_, ?_⟩
  · rw [bt_tick_fuel_selector f d cs hty, bt_sel_model_result, hec]
  · rw [bt_tick_fuel_selector f d cs hty, bt_sel_model_cursor, hec]
  · rw [bt_tick_fuel_selector f d cs hty]
    exact bt_sel_model_status _ _ _
  · rw [bt_tick_fuel_selector f d cs hty]
    have h0 := bt_sel_model_enter (bt_tick_fuel f) { d with tick_count := d.tick_count + 1 } cs
    simpa using h0
  · rw [bt_tick_fuel_selector f d cs hty]
    have h0 := bt_sel_model_exit (bt_tick_fuel f) { d with tick_count := d.tick_count + 1 } cs
    simpa using h0
  · intro hnil
    subst hnil
    rw [bt_tick_fuel_selector f d [] hty]
    simp [bt_sel_model, bt_sel_go]

/-- Witness for claim C3 at the two-child Selector `bt_sel2_node`
(Scenario B). -/
theorem claim_C3_witness :
    bt_sel2_data.type = bt_node_type.selector ∧
    bt_claim_C3_prop 1 bt_sel2_data [some bt_leaf_failure, some bt_leaf_success] :=
  ⟨rfl, claim_C3 1 bt_sel2_data [some bt_leaf_failure, some bt_leaf_success] rfl⟩

/-- Claim C4: an Inverter without exactly one child slot errors immediately
and ticks no child; with one slot that is NULL it also errors without
ticking a child; with one resolved child it maps the child's result through
the Success/Failure swap (`Running` and `Error` pass through) and stores
the mapped result in its status. -/
theorem claim_C4 (f : Nat) (d : bt_node_data) (cs : List (Option bt_node))
    (hty : d.type = bt_node_type.inverter) :
    (bt_children_count (bt_node.mk d cs) ≠ 1 →
      (bt_tick_fuel (f + 1) (bt_node.mk d cs)).2 = bt_status.error ∧
      ((bt_tick_fuel (f + 1) (bt_node.mk d cs)).1).children = cs) ∧
    (bt_children_count (bt_node.mk d cs) = 1 →
      bt_child_at (bt_node.mk d cs) 0 = none →
      (bt_tick_fuel (f + 1) (bt_node.mk d cs)).2 = bt_status.error ∧
      ((bt_tick_fuel (f + 1) (bt_node.mk d cs)).1).children = cs) ∧
    (∀ c : bt_node, bt_children_count (bt_node.mk d cs) = 1 →
      bt_child_at (bt_node.mk d cs) 0 = some c →
      (bt_tick_fuel (f + 1) (bt_node.mk d cs)).2 = bt_invert ((bt_tick_fuel f c).2) ∧
      ((bt_tick_fuel (f + 1) (bt_node.mk d cs)).1).data.status =
        (bt_tick_fuel (f + 1) (bt_node.mk d cs)).2) := by
  rw [bt_tick_fuel_inverter f d cs hty]
  match cs with
  | [] =>
    rw [bt_tick_inverter_eq_badcount _ _ _ (by simp)]
    refine ⟨fun _ => ⟨rfl, rfl⟩, ?_, ?_⟩
    · intro h1; simp [bt_children_count] at h1
    · intro c h1; simp [bt_children_count] at h1
  | none :: [] =>
    rw [bt_tick_inverter_eq_nullchild]
    refine ⟨?_, fun _ _ => ⟨rfl, rfl⟩, ?_⟩
    · intro h1; simp [bt_children_count] at h1
    · intro c h1 h2; simp [bt_child_at] at h2
  | some c0 :: [] =>
    rw [bt_tick_inverter_eq_child]
    refine ⟨?_, ?_, ?_⟩
    · intro h1; simp [bt_children_count] at h1
    · intro h1 h2; simp [bt_child_at] at h2
    · intro c h1 h2
      have hc : c0 = c := by simpa [bt_child_at] using h2
      subst hc
      exact ⟨rfl, by simp⟩
  | x :: y :: rest =>
    rw [bt_tick_inverter_eq_badcount _ _ _ (by simp)]
    refine ⟨fun _ => ⟨rfl, rfl⟩, ?_, ?_⟩
    · intro h1; simp [bt_children_count] at h1
    · intro c h1; simp [bt_children_count] at h1

/-- Witness for claim C4 at the well-formed Inverter over an
always-succeeding leaf: the tick maps the child's `Success` to `Failure`
and stores it. -/
theorem claim_C4_witness :
    (bt_demo_data bt_node_type.inverter none).type = bt_node_type.inverter ∧
    bt_children_count bt_wf_inverter = 1 ∧
    bt_child_at bt_wf_inverter 0 = some bt_leaf_success ∧
    (bt_tick_fuel 1 bt_wf_inverter).2 = bt_invert ((bt_tick_fuel 0 bt_leaf_success).2) ∧
    ((bt_tick_fuel 1 bt_wf_inverter).1).data.status = (bt_tick_fuel 1 bt_wf_inverter).2 :=
  ⟨rfl, by decide, rfl,
   (claim_C4 0 (bt_demo_data bt_node_type.inverter none) [some bt_leaf_success] rfl).2.2
     bt_leaf_success (by decide) rfl⟩

/-! ## Error stop (claim C8) -/

theorem bt_child_at_eq_some {n : bt_node} {j : Nat} {c : bt_node}
    (h : bt_child_at n j = some c) : n.children.get? j = some (some c) := by
  unfold bt_child_at at h
  rcases hx : n.children.get? j with _ | x
  · rw [hx] at h; simp at h
  · rcases x with _ | c2
    · rw [hx] at h; simp at h
    · rw [hx] at h
      simp at h
      simp [hx, h]

theorem bt_child_at_lt {n : bt_node} {j : Nat} {c : bt_node}
    (h : bt_child_at n j = some c) : j < n.children.length := by
  have h1 := bt_child_at_eq_some h
  by_contra h2
  rw [List.get?_eq_none.mpr (by omega)] at h1
  simp at h1

theorem bt_entry_cursor_bump (d : bt_node_data) (cs : List (Option bt_node)) :
    bt_entry_cursor (bt_node.mk { d with tick_count := d.tick_count + 1 } cs)
      = bt_entry_cursor (bt_node.mk d cs) := by
  simp [bt_entry_cursor]

theorem bt_seq_error_stop (f : Nat) (d : bt_node_data) (cs : List (Option bt_node)) (i : Nat)
    (hty : d.type = bt_node_type.sequence)
    (hge : bt_entry_cursor (bt_node.mk d cs) ≤ i)
    (hadv : ∀ j, bt_entry_cursor (bt_node.mk d cs) ≤ j → j < i →
      ∃ cj : bt_node, bt_child_at (bt_node.mk d cs) j = some cj ∧
        (bt_tick_fuel f cj).2 = bt_status.success)
    (herr : ∃ ci : bt_node, bt_child_at (bt_node.mk d cs) i = some ci ∧
      (bt_tick_fuel f ci).2 = bt_status.error) :
    (bt_tick_fuel (f + 1) (bt_node.mk d cs)).2 = bt_status.error ∧
    ((bt_tick_fuel (f + 1) (bt_node.mk d cs)).1).data.current_child = i ∧
    (∀ j, i < j →
      ((bt_tick_fuel (f + 1) (bt_node.mk d cs)).1).children.get? j = cs.get? j) := by
  obtain ⟨ci, hci, hcie⟩ := herr
  have hmap : ∀ q, q < i - bt_entry_cursor (bt_node.mk d cs) →
      ((cs.drop (bt_entry_cursor (bt_node.mk d cs))).map
        (bt_child_res (bt_tick_fuel f))).get? q = some (some bt_status.success) := by
    intro q hq
    obtain ⟨cj, hcj, hcjs⟩ := hadv (bt_entry_cursor (bt_node.mk d cs) + q)
      (by omega) (by omega)
    have hg := bt_child_at_eq_some hcj
    simp only [bt_node.children_mk] at hg
    rw [List.get?_map, List.get?_drop, hg]
    simp [bt_child_res, hcjs]
  have hmapi : ((cs.drop (bt_entry_cursor (bt_node.mk d cs))).map
      (bt_child_res (bt_tick_fuel f))).get? (i - bt_entry_cursor (bt_node.mk d cs))
      = some (some bt_status.error) := by
    have hg := bt_child_at_eq_some hci
    simp only [bt_node.children_mk] at hg
    rw [List.get?_map, List.get?_drop,
      show bt_entry_cursor (bt_node.mk d cs) + (i - bt_entry_cursor (bt_node.mk d cs)) = i
        from by omega, hg]
    simp [bt_child_res, hcie]
  have hscan : bt_seq_scan (bt_entry_cursor (bt_node.mk d cs))
      ((cs.drop (bt_entry_cursor (bt_node.mk d cs))).map (bt_child_res (bt_tick_fuel f)))
      = (i, bt_status.error) := by
    rw [bt_seq_scan_stop (i - bt_entry_cursor (bt_node.mk d cs)) _ _
        (some bt_status.error) hmap hmapi (by simp),
      show bt_entry_cursor (bt_node.mk d cs) + (i - bt_entry_cursor (bt_node.mk d cs)) = i
        from by omega]
    rfl
  have hlti : i < cs.length := by
    have := bt_child_at_lt hci
    simpa using this
  refine ⟨?_, ?_, ?_⟩
  · rw [bt_tick_fuel_sequence f d cs hty, bt_seq_model_result, bt_entry_cursor_bump, hscan]
  · rw [bt_tick_fuel_sequence f d cs hty, bt_seq_model_cursor, bt_entry_cursor_bump, hscan]
  · intro j hj
    rw [bt_tick_fuel_sequence f d cs hty, bt_seq_model_children, bt_entry_cursor_bump]
    have hgs := bt_seq_go_scan (bt_tick_fuel f)
      (cs.drop (bt_entry_cursor (bt_node.mk d cs))) (bt_entry_cursor (bt_node.mk d cs))
    rw [hscan] at hgs
    have hgcur : (bt_seq_go (bt_tick_fuel f) (bt_entry_cursor (bt_node.mk d cs))
        (bt_entry_cursor (bt_node.mk d cs))
        (cs.drop (bt_entry_cursor (bt_node.mk d cs)))).2.1 = i := hgs.1
    have hgbrk : (bt_seq_go (bt_tick_fuel f) (bt_entry_cursor (bt_node.mk d cs))
        (bt_entry_cursor (bt_node.mk d cs))
        (cs.drop (bt_entry_cursor (bt_node.mk d cs)))).2.2 ≠ none := by
      intro hN
      have h2 := hgs.2
      rw [hN] at h2
      simp at h2
    have htail := bt_seq_go_tail (bt_tick_fuel f)
      (cs.drop (bt_entry_cursor (bt_node.mk d cs))) (bt_entry_cursor (bt_node.mk d cs))
      hgbrk (j - bt_entry_cursor (bt_node.mk d cs)) (by rw [hgcur]; omega)
    rw [List.get?_append_right (by simp; omega), List.length_take,
      show min (bt_entry_cursor (bt_node.mk d cs)) cs.length
        = bt_entry_cursor (bt_node.mk d cs) from by omega, htail, List.get?_drop,
      show bt_entry_cursor (bt_node.mk d cs) + (j - bt_entry_cursor (bt_node.mk d cs)) = j
        from by omega]

theorem bt_sel_error_stop (f : Nat) (d : bt_node_data) (cs : List (Option bt_node)) (i : Nat)
    (hty : d.type = bt_node_type.selector)
    (hge : bt_entry_cursor (bt_node.mk d cs) ≤ i)
    (hadv : ∀ j, bt_entry_cursor (bt_node.mk d cs) ≤ j → j < i →
      ∃ cj : bt_node, bt_child_at (bt_node.mk d cs) j = some cj ∧
        (bt_tick_fuel f cj).2 = bt_status.failure)
    (herr : ∃ ci : bt_node, bt_child_at (bt_node.mk d cs) i = some ci ∧
      (bt_tick_fuel f ci).2 = bt_status.error) :
    (bt_tick_fuel (f + 1) (bt_node.mk d cs)).2 = bt_status.error ∧
    ((bt_tick_fuel (f + 1) (bt_node.mk d cs)).1).data.current_child = i ∧
    (∀ j, i < j →
      ((bt_tick_fuel (f + 1) (bt_node.mk d cs)).1).children.get? j = cs.get? j) := by
  obtain ⟨ci, hci, hcie⟩ := herr
  have hmap : ∀ q, q < i - bt_entry_cursor (bt_node.mk d cs) →
      ((cs.drop (bt_entry_cursor (bt_node.mk d cs))).map
        (bt_child_res (bt_tick_fuel f))).get? q = some (some bt_status.failure) := by
    intro q hq
    obtain ⟨cj, hcj, hcjs⟩ := hadv (bt_entry_cursor (bt_node.mk d cs) + q)
      (by omega) (by omega)
    have hg := bt_child_at_eq_some hcj
    simp only [bt_node.children_mk] at hg
    rw [List.get?_map, List.get?_drop, hg]
    simp [bt_child_res, hcjs]
  have hmapi : ((cs.drop (bt_entry_cursor (bt_node.mk d cs))).map
      (bt_child_res (bt_tick_fuel f))).get? (i - bt_entry_cursor (bt_node.mk d cs))
      = some (some bt_status.error) := by
    have hg := bt_child_at_eq_some hci
    simp only [bt_node.children_mk] at hg
    rw [List.get?_map, List.get?_drop,
      show bt_entry_cursor (bt_node.mk d cs) + (i - bt_entry_cursor (bt_node.mk d cs)) = i
        from by omega, hg]
    simp [bt_child_res, hcie]
  have hscan : bt_sel_scan (bt_entry_cursor (bt_node.mk d cs))
      ((cs.drop (bt_entry_cursor (bt_node.mk d cs))).map (bt_child_res (bt_tick_fuel f)))
      = (i, bt_status.error) := by
    rw [bt_sel_scan_stop (i - bt_entry_cursor (bt_node.mk d cs)) _ _
        (some bt_status.error) hmap hmapi (by simp),
      show bt_entry_cursor (bt_node.mk d cs) + (i - bt_entry_cursor (bt_node.mk d cs)) = i
        from by omega]
    rfl
  have hlti : i < cs.length := by
    have := bt_child_at_lt hci
    simpa using this
  refine ⟨?_, ?_, ?_⟩
  · rw [bt_tick_fuel_selector f d cs hty, bt_sel_model_result, bt_entry_cursor_bump, hscan]
  · rw [bt_tick_fuel_selector f d cs hty, bt_sel_model_cursor, bt_entry_cursor_bump, hscan]
  · intro j hj
    rw [bt_tick_fuel_selector f d cs hty, bt_sel_model_children, bt_entry_cursor_bump]
    have hgs := bt_sel_go_scan (bt_tick_fuel f)
      (cs.drop (bt_entry_cursor (bt_node.mk d cs))) (bt_entry_cursor (bt_node.mk d cs))
    rw [hscan] at hgs
    have hgcur : (bt_sel_go (bt_tick_fuel f) (bt_entry_cursor (bt_node.mk d cs))
        (bt_entry_cursor (bt_node.mk d cs))
        (cs.drop (bt_entry_cursor (bt_node.mk d cs)))).2.1 = i := hgs.1
    have hgbrk : (bt_sel_go (bt_tick_fuel f) (bt_entry_cursor (bt_node.mk d cs))
        (bt_entry_cursor (bt_node.mk d cs))
        (cs.drop (bt_entry_cursor (bt_node.mk d cs)))).2.2 ≠ none := by
      intro hN
      have h2 := hgs.2
      rw [hN] at h2
      simp at h2
    have htail := bt_sel_go_tail (bt_tick_fuel f)
      (cs.drop (bt_entry_cursor (bt_node.mk d cs))) (bt_entry_cursor (bt_node.mk d cs))
      hgbrk (j - bt_entry_cursor (bt_node.mk d cs)) (by rw [hgcur]; omega)
    rw [List.get?_append_right (by simp; omega), List.length_take,
      show min (bt_entry_cursor (bt_node.mk d cs)) cs.length
        = bt_entry_cursor (bt_node.mk d cs) from by omega, htail, List.get?_drop,
      show bt_entry_cursor (bt_node.mk d cs) + (j - bt_entry_cursor (bt_node.mk d cs)) = j
        from by omega]

/-- Claim C8: in both composites, a child returning `Error` during
traversal stops the tick immediately with result `Error` and the cursor on
the offending child; the next child is never ticked — its slot (and every
later slot) is untouched — even though a Selector would have advanced past
a mere `Failure`. -/
theorem claim_C8 (f : Nat) (d : bt_node_data) (cs : List (Option bt_node)) (i : Nat)
    (adv : bt_status)
    (hty : (d.type = bt_node_type.sequence ∧ adv = bt_status.success) ∨
           (d.type = bt_node_type.selector ∧ adv = bt_status.failure))
    (hge : bt_entry_cursor (bt_node.mk d cs) ≤ i)
    (hadv : ∀ j, bt_entry_cursor (bt_node.mk d cs) ≤ j → j < i →
      ∃ cj : bt_node, bt_child_at (bt_node.mk d cs) j = some cj ∧
        (bt_tick_fuel f cj).2 = adv)
    (herr : ∃ ci : bt_node, bt_child_at (bt_node.mk d cs) i = some ci ∧
      (bt_tick_fuel f ci).2 = bt_status.error) :
    (bt_tick_fuel (f + 1) (bt_node.mk d cs)).2 = bt_status.error ∧
    ((bt_tick_fuel (f + 1) (bt_node.mk d cs)).1).data.current_child = i ∧
    (∀ j, i < j →
      ((bt_tick_fuel (f + 1) (bt_node.mk d cs)).1).children.get? j = cs.get? j) := by
  rcases hty with ⟨hty, rfl⟩ | ⟨hty, rfl⟩
  · exact bt_seq_error_stop f d cs i hty hge hadv herr
  · exact bt_sel_error_stop f d cs i hty hge hadv herr

/-- Witness for claim C8 at a fresh three-child Sequence whose second child
errors: the tick returns `Error`, parks the cursor on child 1, and leaves
the slot of child 2 untouched. -/
theorem claim_C8_witness :
    (bt_seq2_data.type = bt_node_type.sequence ∧
      (bt_status.success : bt_status) = bt_status.success) ∧
    bt_entry_cursor (bt_node.mk bt_seq2_data
      [some bt_leaf_success, some bt_leaf_error, some bt_leaf_success]) ≤ 1 ∧
    (bt_tick_fuel 2 (bt_node.mk bt_seq2_data
      [some bt_leaf_success, some bt_leaf_error, some bt_leaf_success])).2
        = bt_status.error ∧
    ((bt_tick_fuel 2 (bt_node.mk bt_seq2_data
      [some bt_leaf_success, some bt_leaf_error, some bt_leaf_success])).1).data.current_child
        = 1 ∧
    ((bt_tick_fuel 2 (bt_node.mk bt_seq2_data
      [some bt_leaf_success, some bt_leaf_error, some bt_leaf_success])).1).children.get? 2
        = some (some bt_leaf_success) := by
  have h := claim_C8 1 bt_seq2_data
    [some bt_leaf_success, some bt_leaf_error, some bt_leaf_success] 1 bt_status.success
    (Or.inl ⟨rfl, rfl⟩)
    (by decide)
    (by
      intro j hj1 hj2
      have h0 : bt_entry_cursor (bt_node.mk bt_seq2_data
          [some bt_leaf_success, some bt_leaf_error, some bt_leaf_success]) = 0 := rfl
      rw [h0] at hj1
      have hj0 : j = 0 := by omega
      subst hj0
      exact ⟨bt_leaf_success, rfl, rfl⟩)
    ⟨bt_leaf_error, rfl, rfl⟩
  exact ⟨⟨rfl, rfl⟩, by decide, h.1, h.2.1, (h.2.2 2 (by omega)).trans rfl⟩

theorem bt_tick_fuel_tick_count_node (f : Nat) (c : bt_node) :
    ((bt_tick_fuel (f + 1) c).1).data.tick_count = c.data.tick_count + 1 := by
  cases c with
  | mk dc csc => exact bt_tick_fuel_tick_count f dc csc

/-- Claim C5 (resumption law): if a tick of a Sequence or Selector returns
`Running` with the cursor parked at `k`, the next tick re-ticks the child
at index `k` first — that child's dispatch counter advances by exactly one
— and no child before index `k` is ticked again (their slots are left
exactly as they were). -/
theorem claim_C5 (node : bt_node) (k : Nat)
    (hty : node.data.type = bt_node_type.sequence ∨
      node.data.type = bt_node_type.selector)
    (hrun : (bt_tick_internal node).2 = bt_status.running)
    (hk : ((bt_tick_internal node).1).data.current_child = k) :
    (∀ j, j < k → ((bt_tick_internal (bt_tick_internal node).1).1).children.get? j
        = ((bt_tick_internal node).1).children.get? j) ∧
    (∀ c : bt_node, bt_child_at (bt_tick_internal node).1 k = some c →
      ∃ c2 : bt_node,
        bt_child_at (bt_tick_internal (bt_tick_internal node).1).1 k = some c2 ∧
        c2.data.tick_count = c.data.tick_count + 1) := by
  have hhook : bt_hookable node := by
    rcases hty with h | h
    · exact Or.inl h
    · exact Or.inr (Or.inl h)
  have hty1 : ((bt_tick_internal node).1).data.type = node.data.type :=
    (bt_frame_eq_fields (bt_tick_fuel_frame (bt_size node) node)).1
  have hst1 : ((bt_tick_internal node).1).data.status = bt_status.running := by
    rw [bt_tick_internal_status node hhook, hrun]
  rcases hn1 : (bt_tick_internal node).1 with ⟨e, xs⟩
  rw [hn1] at hst1 hk hty1
  simp only [bt_node.data_mk] at hst1 hk hty1
  rw [bt_tick_internal_eq_fuel (bt_node.mk e xs)]
  have hcck : ({ e with tick_count := e.tick_count + 1 } : bt_node_data).current_child
      = k := hk
  rcases hty with hT | hT
  · have hseq : e.type = bt_node_type.sequence := by rw [hty1, hT]
    rw [bt_tick_fuel_sequence _ e xs hseq]
    have hres := bt_seq_model_resume (bt_tick_fuel (bt_size (bt_node.mk e xs) - 1))
      { e with tick_count := e.tick_count + 1 } xs hst1
    constructor
    · intro j hj
      have h1 := hres.1 j (by rw [hcck]; exact hj)
      simpa using h1
    · intro c hc
      have hc2 : bt_child_at
          (bt_node.mk { e with tick_count := e.tick_count + 1 } xs)
          ({ e with tick_count := e.tick_count + 1 } : bt_node_data).current_child
          = some c := by
        rw [hcck]
        exact hc
      have h2 := hres.2 c hc2
      refine ⟨(bt_tick_fuel (bt_size (bt_node.mk e xs) - 1) c).1, ?_, ?_⟩
      · rw [show (k : Nat) =
            ({ e with tick_count := e.tick_count + 1 } : bt_node_data).current_child
          from hcck.symm]
        exact h2
      · have hmem : some c ∈ xs := List.get?_mem (by simpa using bt_child_at_eq_some hc)
        have hsz := bt_size_ge_two e xs c hmem
        rw [show bt_size (bt_node.mk e xs) - 1 = (bt_size (bt_node.mk e xs) - 2) + 1
          from by omega]
        exact bt_tick_fuel_tick_count_node _ c
  · have hsel : e.type = bt_node_type.selector := by rw [hty1, hT]
    rw [bt_tick_fuel_selector _ e xs hsel]
    have hres := bt_sel_model_resume (bt_tick_fuel (bt_size (bt_node.mk e xs) - 1))
      { e with tick_count := e.tick_count + 1 } xs hst1
    constructor
    · intro j hj
      have h1 := hres.1 j (by rw [hcck]; exact hj)
      simpa using h1
    · intro c hc
      have hc2 : bt_child_at
          (bt_node.mk { e with tick_count := e.tick_count + 1 } xs)
          ({ e with tick_count := e.tick_count + 1 } : bt_node_data).current_child
          = some c := by
        rw [hcck]
        exact hc
      have h2 := hres.2 c hc2
      refine ⟨(bt_tick_fuel (bt_size (bt_node.mk e xs) - 1) c).1, ?_, ?_⟩
      · rw [show (k : Nat) =
            ({ e with tick_count := e.tick_count + 1 } : bt_node_data).current_child
          from hcck.symm]
        exact h2
      · have hmem : some c ∈ xs := List.get?_mem (by simpa using bt_child_at_eq_some hc)
        have hsz := bt_size_ge_two e xs c hmem
        rw [show bt_size (bt_node.mk e xs) - 1 = (bt_size (bt_node.mk e xs) - 2) + 1
          from by omega]
        exact bt_tick_fuel_tick_count_node _ c

/-! ## Size preservation under ticking -/

theorem bt_frame_size_aux : ∀ k : Nat, ∀ a b : bt_node,
    bt_size a ≤ k → bt_frame_eq a b → bt_size b = bt_size a := by
  intro k
  induction k with
  | zero =>
    intro a b ha _
    have := bt_size_pos a
    omega
  | succ k ih =>
    intro a b ha hf
    cases hf with
    | mk d d2 cs cs2 h1 h2 h3 h4 h5 h6 h7 h8 =>
      simp only [bt_size]
      have hlist : ∀ (xs ys : List (Option bt_node)), bt_frame_list xs ys →
          (∀ c c2 : bt_node, some c ∈ xs → bt_frame_eq c c2 → bt_size c2 = bt_size c) →
          bt_size_list ys = bt_size_list xs := by
        intro xs
        induction xs with
        | nil => intro ys h _; cases h; rfl
        | cons hd tl ihl =>
          intro ys h hm
          cases h with
          | cons_none xs2 ys2 hrel =>
            simp [bt_size_list,
              ihl ys2 hrel (fun c c2 hc => hm c c2 (List.mem_cons_of_mem _ hc))]
          | cons_some x y xs2 ys2 hxy hrel =>
            simp only [bt_size_list]
            rw [hm x y (List.mem_cons_self _ _) hxy,
              ihl ys2 hrel (fun c c2 hc => hm c c2 (List.mem_cons_of_mem _ hc))]
      have hsa : bt_size_list cs + 1 ≤ k + 1 := by
        have : bt_size (bt_node.mk d cs) = bt_size_list cs + 1 := by simp [bt_size]
        omega
      have hres := hlist cs cs2 h8 (fun c c2 hc hfc => ih c c2 (by
        have := bt_size_lt_of_mem cs c hc
        omega) hfc)
      omega

theorem bt_tick_fuel_size (f : Nat) (n : bt_node) :
    bt_size (bt_tick_fuel f n).1 = bt_size n :=
  bt_frame_size_aux (bt_size n) n _ (Nat.le_refl _) (bt_tick_fuel_frame f n)

theorem bt_run_size (n : bt_node) : ∀ k : Nat, bt_size (bt_run n k) = bt_size n := by
  intro k
  induction k with
  | zero => rfl
  | succ k ih =>
    show bt_size (bt_tick_internal (bt_run n k)).1 = bt_size n
    unfold bt_tick_internal
    rw [bt_tick_fuel_size, ih]

/-- Claim C6 (amended, hook law): for every Sequence or Selector node, and
every Inverter with exactly one resolved child, an episode — a fresh entry
(status not `running`) followed by `m` `Running` results and then one
terminal result — fires the installed `on_enter` exactly once (at the
fresh-entry tick) and the installed `on_exit` exactly once (at the terminal
tick), no matter how many `Running` ticks lie in between. -/
theorem claim_C6 (node : bt_node) (m : Nat)
    (hh : bt_hookable node)
    (hE : node.data.has_on_enter = true) (hX : node.data.has_on_exit = true)
    (hfresh : node.data.status ≠ bt_status.running)
    (hmid : ∀ i, i < m → bt_run_result node i = bt_status.running)
    (hterm : bt_terminal (bt_run_result node m)) :
    (bt_run node (m + 1)).data.enter_count = node.data.enter_count + 1 ∧
    (bt_run node (m + 1)).data.exit_count = node.data.exit_count + 1 := by
  have hterm2 : bt_run_result node m ≠ bt_status.running := (bt_terminal_iff _).mp hterm
  cases m with
  | zero =>
    have he := bt_tick_internal_enter_delta node hh
    have hx := bt_tick_internal_exit_delta node hh
    have ht0 : (bt_tick_internal node).2 ≠ bt_status.running := hterm2
    constructor
    · rw [show bt_run node 1 = (bt_tick_internal node).1 from rfl, he]
      simp [hfresh, hE]
    · rw [show bt_run node 1 = (bt_tick_internal node).1 from rfl, hx]
      simp [ht0, hX]
  | succ m =>
    have h0 : (bt_tick_internal node).2 = bt_status.running := hmid 0 (Nat.succ_pos m)
    have hst : ((bt_tick_internal node).1).data.status = bt_status.running := by
      rw [bt_tick_internal_status node hh, h0]
    have hh1 := bt_tick_internal_hookable node hh
    have hX1 : ((bt_tick_internal node).1).data.has_on_exit = true := by
      rw [(bt_tick_internal_hooks node).2, hX]
    have hrun1 : bt_run node 1 = (bt_tick_internal node).1 := rfl
    have hmid1 : ∀ i, i < m →
        bt_run_result (bt_tick_internal node).1 i = bt_status.running := by
      intro i hi
      rw [← hrun1, ← bt_run_result_shift]
      exact hmid (i + 1) (by omega)
    have hterm1 : bt_run_result (bt_tick_internal node).1 m ≠ bt_status.running := by
      rw [← hrun1, ← bt_run_result_shift]
      exact hterm2
    obtain ⟨r1, r2⟩ := bt_episode_running m (bt_tick_internal node).1 hh1 hX1 hst hmid1 hterm1
    have hsh : bt_run node (m + 1 + 1) = bt_run (bt_tick_internal node).1 (m + 1) := by
      rw [bt_run_shift, hrun1]
    constructor
    · rw [hsh, r1, bt_tick_internal_enter_delta node hh]
      simp [hfresh, hE]
    · rw [hsh, r2, bt_tick_internal_exit_delta node hh]
      simp [h0]

/-- A malformed Inverter (zero child slots) with both hooks installed. -/
def bt_bad_inverter_h : bt_node := .mk (bt_demo_data_h bt_node_type.inverter none) []

/-- An Inverter with one NULL child slot and both hooks installed. -/
def bt_null_inverter_h : bt_node := .mk (bt_demo_data_h bt_node_type.inverter none) [none]

/-- Claim C6, counterexample to the claim as stated: a malformed Inverter
with hooks installed and zero child slots completes an episode in one tick
(fresh entry, terminal `Error` result), yet neither `on_enter` nor
`on_exit` fires; an Inverter whose single child slot is NULL fires
`on_enter` on its fresh terminal-`Error` tick but never `on_exit`. -/
theorem claim_C6_cex :
    bt_bad_inverter_h.data.has_on_enter = true ∧
    bt_bad_inverter_h.data.has_on_exit = true ∧
    bt_bad_inverter_h.data.status ≠ bt_status.running ∧
    bt_terminal (bt_run_result bt_bad_inverter_h 0) ∧
    (bt_run bt_bad_inverter_h 1).data.enter_count = 0 ∧
    (bt_run bt_bad_inverter_h 1).data.exit_count = 0 ∧
    bt_null_inverter_h.data.status ≠ bt_status.running ∧
    bt_terminal (bt_run_result bt_null_inverter_h 0) ∧
    (bt_run bt_null_inverter_h 1).data.enter_count = 1 ∧
    (bt_run bt_null_inverter_h 1).data.exit_count = 0 := by
  have h1 : bt_size bt_bad_inverter_h = 1 := by
    simp [bt_bad_inverter_h, bt_size, bt_size_list]
  have h2 : bt_size bt_null_inverter_h = 2 := by
    simp [bt_null_inverter_h, bt_size, bt_size_list]
  have e1 : bt_run bt_bad_inverter_h 1 = (bt_tick_fuel 1 bt_bad_inverter_h).1 := by
    simp only [bt_run, bt_tick_internal, h1]
  have e2 : bt_run_result bt_bad_inverter_h 0 = (bt_tick_fuel 1 bt_bad_inverter_h).2 := by
    simp only [bt_run_result, bt_run, bt_tick_internal, h1]
  have e3 : bt_run bt_null_inverter_h 1 = (bt_tick_fuel 2 bt_null_inverter_h).1 := by
    simp only [bt_run, bt_tick_internal, h2]
  have e4 : bt_run_result bt_null_inverter_h 0 = (bt_tick_fuel 2 bt_null_inverter_h).2 := by
    simp only [bt_run_result, bt_run, bt_tick_internal, h2]
  refine ⟨rfl, rfl, by decide, ?_, ?_, ?_, by decide, ?_, ?_, ?_⟩
  · rw [e2]; decide
  · rw [e1]; decide
  · rw [e1]; decide
  · rw [e4]; decide
  · rw [e3]; decide
  · rw [e3]; decide

/-- Witness for claim C6: a two-tick episode of the hook-enabled Sequence
`bt_seq2_node` (`Running` then `Success`) fires each hook exactly once. -/
theorem claim_C6_witness :
    bt_seq2_node.data.type = bt_node_type.sequence ∧
    bt_seq2_node.data.has_on_enter = true ∧
    bt_seq2_node.data.has_on_exit = true ∧
    bt_seq2_node.data.status ≠ bt_status.running ∧
    bt_run_result bt_seq2_node 0 = bt_status.running ∧
    bt_terminal (bt_run_result bt_seq2_node 1) ∧
    (bt_run bt_seq2_node 2).data.enter_count = bt_seq2_node.data.enter_count + 1 ∧
    (bt_run bt_seq2_node 2).data.exit_count = bt_seq2_node.data.exit_count + 1 := by
  have hsz : bt_size bt_seq2_node = 5 := by
    simp [bt_seq2_node, bt_leaf_success, bt_leaf_run1, bt_size, bt_size_list]
  have e0 : bt_run_result bt_seq2_node 0 = (bt_tick_fuel 5 bt_seq2_node).2 := by
    simp only [bt_run_result, bt_run, bt_tick_internal, hsz]
  have e1n : bt_run bt_seq2_node 1 = (bt_tick_fuel 5 bt_seq2_node).1 := by
    simp only [bt_run, bt_tick_internal, hsz]
  have e1 : bt_run_result bt_seq2_node 1
      = (bt_tick_fuel 5 ((bt_tick_fuel 5 bt_seq2_node).1)).2 := by
    unfold bt_run_result bt_tick_internal
    rw [e1n, bt_tick_fuel_size, hsz]
  have h0 : bt_run_result bt_seq2_node 0 = bt_status.running := by
    rw [e0]; decide
  have h1 : bt_terminal (bt_run_result bt_seq2_node 1) := by
    rw [e1]; decide
  have hmid : ∀ i, i < 1 → bt_run_result bt_seq2_node i = bt_status.running := by
    intro i hi
    have hi0 : i = 0 := by omega
    subst hi0
    exact h0
  obtain ⟨hc1, hc2⟩ := claim_C6 bt_seq2_node 1 (Or.inl rfl) rfl rfl (by decide) hmid h1
  exact ⟨rfl, rfl, rfl, by decide, h0, h1, hc1, hc2⟩

/-- Witness for claim C5: after the first tick of `bt_seq2_node` returns
`Running` with cursor 1, the next tick leaves child slot 0 untouched. -/
theorem claim_C5_witness :
    (bt_seq2_data.type = bt_node_type.sequence ∨
      bt_seq2_data.type = bt_node_type.selector) ∧
    (bt_tick_internal bt_seq2_node).2 = bt_status.running ∧
    ((bt_tick_internal bt_seq2_node).1).data.current_child = 1 ∧
    ((bt_tick_internal (bt_tick_internal bt_seq2_node).1).1).children.get? 0
      = ((bt_tick_internal bt_seq2_node).1).children.get? 0 := by
  have hsz : bt_size bt_seq2_node = 5 := by
    simp [bt_seq2_node, bt_leaf_success, bt_leaf_run1, bt_size, bt_size_list]
  have hrun : (bt_tick_internal bt_seq2_node).2 = bt_status.running := by
    unfold bt_tick_internal
    rw [hsz]
    decide
  have hk : ((bt_tick_internal bt_seq2_node).1).data.current_child = 1 := by
    unfold bt_tick_internal
    rw [hsz]
    decide
  exact ⟨Or.inl rfl, hrun, hk,
    (claim_C5 bt_seq2_node 1 (Or.inl rfl) hrun hk).1 0 (by omega)⟩
